import Mathlib

/-! # pjlib `os_info.c`: system information descriptor

A shallow embedding of `pjlib/src/pj/os_info.c` and the properties of it
that the specification states.

Conventions of the embedding.

* A C `char` array is a `List Char`; the C string it holds is the run of
  characters before the first terminator (`c_str`), with an implicit
  terminator at the end of the list.
* `pj_uint32_t` values are natural numbers, reduced `% 2 ^ 32` wherever the C
  code converts a wider or shifted value to 32 bits.
* The function-local statics `si_buffer`, `si`, `si_initialized` are passed
  explicitly (`Statics`); the automatic variable `left` lives in
  `DetectState` and starts at `PJ_SYS_INFO_BUFFER_SIZE` on every call.
* Preprocessor conditionals become fields of `Build`; what the operating
  system and the C library answer at run time becomes fields of `Platform`.
-/

namespace PjOsInfo

/-! ## C strings -/

/-- The terminator of a C string. -/
def NUL : Char := Char.ofNat 0

/-- The C string held in a char array: the characters before the first
terminator. -/
def c_str (s : List Char) : List Char :=
  s.takeWhile (fun c => c != NUL)

/-- The C function `strlen`. -/
def pj_ansi_strlen (s : List Char) : Nat :=
  (c_str s).length

/-- The conversion `%u` of `sprintf`: decimal digits without padding. -/
def fmt_u (n : Nat) : List Char :=
  Nat.toDigits 10 n

/-- Line 51-53: the default size of the arena. -/
def PJ_SYS_INFO_BUFFER_SIZE : Nat := 64

/-! ## `ver_info` (lines 55-79) -/

/-- The text that `ver_info` leaves in `buf` for the packed version `ver`. -/
def ver_info (ver : Nat) : List Char :=
  if ver = 0 then []
  else
    let buf := ('-' :: fmt_u ((ver &&& 0xFF000000) >>> 24)) ++
               ('.' :: fmt_u ((ver &&& 0x00FF0000) >>> 16))
    if ver &&& 0xFFFF ≠ 0 then
      let buf := buf ++ ('.' :: fmt_u ((ver &&& 0xFF00) >>> 8))
      if ver &&& 0x00FF ≠ 0 then
        buf ++ ('.' :: fmt_u (ver &&& 0xFF))
      else buf
    else buf

/-! ## Data model -/

/-- A `char *` as this file uses it: the null pointer, an address inside
`si_buffer`, or the address of a string literal. -/
inductive char_ptr where
  | null : char_ptr
  | arena (off : Nat) : char_ptr
  | literal (s : List Char) : char_ptr
deriving DecidableEq, Repr

/-- The pjlib string view: a pointer and a length (`ptr`, `slen` at lines
95-96). -/
structure pj_str_t where
  ptr : char_ptr
  slen : Nat
deriving DecidableEq, Repr

/-- Modelled from the spec: the declaration of `pj_sys_info` (in `pj/os.h`)
is not part of the sources; the fields are those of section 3 of the
specification, under the names `os_info.c` uses for them. -/
structure pj_sys_info where
  machine : pj_str_t
  os_name : pj_str_t
  os_ver : Nat
  sdk_name : pj_str_t
  sdk_ver : Nat
  info : pj_str_t
deriving DecidableEq, Repr

/-- The string fields of `pj_sys_info`, as the second argument of
`ALLOC_CP_STR`. -/
inductive Field where
  | machine : Field
  | os_name : Field
  | sdk_name : Field
  | info : Field
deriving DecidableEq, Repr

/-- Read `si.field`. -/
def pj_sys_info.get (si : pj_sys_info) : Field → pj_str_t
  | .machine => si.machine
  | .os_name => si.os_name
  | .sdk_name => si.sdk_name
  | .info => si.info

/-- Assign `si.field`. -/
def pj_sys_info.set (si : pj_sys_info) (f : Field) (v : pj_str_t) : pj_sys_info :=
  match f with
  | .machine => { si with machine := v }
  | .os_name => { si with os_name := v }
  | .sdk_name => { si with sdk_name := v }
  | .info => { si with info := v }

/-- Modelled from the spec: `pj_str` (in `pj/string_i.h`) is not part of the
sources; it wraps a C string in a view of its `strlen` characters. -/
def pj_str (s : List Char) : pj_str_t :=
  { ptr := .literal s, slen := pj_ansi_strlen s }

/-- The value of a zero-filled `pj_str_t`. -/
def pj_str_t.zero : pj_str_t := { ptr := .null, slen := 0 }

/-- The value of a zero-filled `pj_sys_info`. -/
def pj_sys_info.zero : pj_sys_info :=
  { machine := .zero, os_name := .zero, os_ver := 0,
    sdk_name := .zero, sdk_ver := 0, info := .zero }

/-- The three function-local statics of `pj_get_sys_info` (lines 83-85). -/
structure Statics where
  si_buffer : List Char
  si : pj_sys_info
  si_initialized : Bool
deriving DecidableEq, Repr

/-- The statics at program start: static storage is zero-filled. -/
def Statics.zero : Statics :=
  { si_buffer := List.replicate PJ_SYS_INFO_BUFFER_SIZE NUL,
    si := .zero, si_initialized := false }

/-- What the detection body reads and writes: the arena, the descriptor and
the automatic variable `left` (line 86). -/
structure DetectState where
  si_buffer : List Char
  si : pj_sys_info
  left : Nat
deriving DecidableEq, Repr

/-- The state in which the detection body starts: `left` is the whole
buffer. -/
def DetectState.enter (st : Statics) : DetectState :=
  { si_buffer := st.si_buffer, si := st.si, left := PJ_SYS_INFO_BUFFER_SIZE }

/-! ## `ALLOC_CP_STR` (lines 91-100) -/

/-- The C function `memcpy` into the arena: the bytes `src` are written to
`dst` from offset `off` on. -/
def pj_memcpy : List Char → Nat → List Char → List Char
  | dst, _, [] => dst
  | dst, off, c :: cs => pj_memcpy (dst.set off c) (off + 1) cs

/-- The body of `ALLOC_CP_STR(str, field)`. The `len + 1` bytes copied are
the text of `str` and its terminator. -/
def ALLOC_CP_STR (str : List Char) (field : Field) (s : DetectState) : DetectState :=
  let len := pj_ansi_strlen str
  if len ≠ 0 ∧ s.left ≥ len + 1 then
    let off := PJ_SYS_INFO_BUFFER_SIZE - s.left
    { si_buffer := pj_memcpy s.si_buffer off (c_str str ++ [NUL]),
      si := s.si.set field { ptr := .arena off, slen := len },
      left := s.left - (len + 1) }
  else s

/-- The characters a view denotes: `slen` characters from `ptr`. -/
def pj_str_t.text (buf : List Char) (v : pj_str_t) : List Char :=
  match v.ptr with
  | .null => []
  | .arena off => (buf.drop off).take v.slen
  | .literal s => s.take v.slen

/-! ## Build configuration and run-time environment -/

/-- The preprocessor symbols the file tests. A symbol tested with
`defined(...)` is an `Option` (its value when defined); the companion symbols
that are only expanded are plain numbers. -/
structure Build where
  /-- `PJ_HAS_UNAME`: set at line 35 when `PJ_HAS_SYS_UTSNAME_H` is non-zero. -/
  PJ_HAS_UNAME : Bool
  /-- `_MSC_VER`. -/
  MSC_VER : Option Nat
  /-- `PJ_WIN32_WINCE` is defined and non-zero. -/
  PJ_WIN32_WINCE : Bool
  /-- `__GLIBC__`. -/
  GLIBC : Option Nat
  /-- `__GLIBC_MINOR__`. -/
  GLIBC_MINOR : Nat
  /-- `__GNU_LIBRARY__`. -/
  GNU_LIBRARY : Option Nat
  /-- `__GNU_LIBRARY_MINOR__`. -/
  GNU_LIBRARY_MINOR : Nat
  /-- `__UCLIBC__`. -/
  UCLIBC : Option Nat
  /-- `__UCLIBC_MAJOR__`. -/
  UCLIBC_MAJOR : Nat
  /-- `__UCLIBC_MINOR__`. -/
  UCLIBC_MINOR : Nat
  /-- `_WIN32_WCE`. -/
  WIN32_WCE : Option Nat
deriving DecidableEq, Repr

/-- The fields of `struct utsname` that the file reads. -/
structure utsname where
  sysname : List Char
  release : List Char
  machine : List Char
deriving DecidableEq, Repr

/-- What the system answers at run time. -/
structure Platform where
  /-- The call `uname(&u)`: `none` when it returns non-zero. -/
  uname : Option utsname
  /-- The call `GetVersionInfoEx(&ovi)`: `none` when it returns `FALSE`,
  otherwise `dwMajorVersion` and `dwMinorVersion`. -/
  GetVersionInfoEx : Option (Nat × Nat)
  /-- The field `wProcessorArchitecture` filled in by `GetSystemInfo`. -/
  wProcessorArchitecture : Nat
  /-- What the `%s` conversion of the C library prints for a null pointer.
  The C standard leaves it undefined; glibc, for one, prints `(null)`. -/
  null_s : List Char
deriving DecidableEq, Repr

/-- Windows SDK constant (`winnt.h`). -/
def PROCESSOR_ARCHITECTURE_INTEL : Nat := 0
/-- Windows SDK constant (`winnt.h`). -/
def PROCESSOR_ARCHITECTURE_SHX : Nat := 4
/-- Windows SDK constant (`winnt.h`). -/
def PROCESSOR_ARCHITECTURE_ARM : Nat := 5
/-- Windows SDK constant (`winnt.h`). -/
def PROCESSOR_ARCHITECTURE_IA64 : Nat := 6
/-- Windows SDK constant (`winnt.h`). -/
def PROCESSOR_ARCHITECTURE_AMD64 : Nat := 9

/-! ## Release string parsing (lines 116-128) -/

/-- The delimiter set `".-"` of line 117. -/
def release_delims : List Char := ['.', '-']

/-- One call of the C function `strtok` on the rest `s` of the string: skip
delimiters; at the end of the string there is no token; otherwise the token
runs up to the next delimiter, which is overwritten by a terminator, and the
scan resumes after it. Returns the token and the rest. -/
def strtok (delims : List Char) (s : List Char) : Option (List Char × List Char) :=
  match s.dropWhile (fun c => decide (c ∈ delims)) with
  | [] => none
  | c :: cs =>
    some ((c :: cs).takeWhile (fun x => !decide (x ∈ delims)),
          ((c :: cs).dropWhile (fun x => !decide (x ∈ delims))).drop 1)

/-- The libc test `isdigit`. -/
def pj_isdigit (c : Char) : Bool := c.isDigit

/-- The C function `atoi` on a string that starts with a digit (line 123
lets no other string through, so white space and sign are never met): the
value of the leading run of digits. The value is kept as a natural number;
the reduction to 32 bits happens where line 127 shifts and stores it. -/
def atoi (tok : List Char) : Nat :=
  (tok.takeWhile pj_isdigit).foldl (fun n c => 10 * n + (c.toNat - '0'.toNat)) 0

/-- The loop of lines 117-128. `k` counts the iterations that `i < maxtok`
still allows (`k = maxtok - i`), `tok` is the result of the last `strtok`
(token and rest of the string), `os_ver` the current `si.os_ver`. -/
def release_loop : Nat → Nat → Option (List Char × List Char) → Nat → Nat
  | 0, _, _, os_ver => os_ver
  | _ + 1, _, none, os_ver => os_ver
  | k + 1, i, some (tok, rest), os_ver =>
    if !pj_isdigit (tok.headD NUL) then os_ver
    else
      let n := atoi tok
      release_loop k (i + 1) (strtok release_delims rest)
        (os_ver ||| (n <<< ((3 - i) * 8)) % 2 ^ 32)

/-- Lines 116-128: `maxtok = 4`, first `strtok` on `u.release`, then the
loop. -/
def parse_release (release : List Char) (os_ver : Nat) : Nat :=
  release_loop 4 0 (strtok release_delims (c_str release)) os_ver

/-! ## The detection steps -/

/-- Lines 105-173, machine and OS info. A `goto get_sdk_info` leaves the
state as it is. -/
def machine_os_info (b : Build) (p : Platform) (s : DetectState) : DetectState :=
  if b.PJ_HAS_UNAME then
    match p.uname with
    | none => s
    | some u =>
      let s := ALLOC_CP_STR u.machine .machine s
      let s := ALLOC_CP_STR u.sysname .os_name s
      { s with si := { s.si with os_ver := parse_release u.release s.si.os_ver } }
  else if b.MSC_VER.isSome then
    match p.GetVersionInfoEx with
    | none => s
    | some (dwMajorVersion, dwMinorVersion) =>
      let si := { s.si with
        os_ver := ((dwMajorVersion <<< 24) ||| (dwMinorVersion <<< 16)) % 2 ^ 32,
        os_name := if b.PJ_WIN32_WINCE then pj_str "wince".toList
                   else pj_str "win32".toList }
      let a := p.wProcessorArchitecture
      let si :=
        if b.PJ_WIN32_WINCE then
          if a = PROCESSOR_ARCHITECTURE_ARM then { si with machine := pj_str "arm".toList }
          else if a = PROCESSOR_ARCHITECTURE_SHX then { si with machine := pj_str "shx".toList }
          else si
        else
          if a = PROCESSOR_ARCHITECTURE_AMD64 then { si with machine := pj_str "x86_64".toList }
          else if a = PROCESSOR_ARCHITECTURE_IA64 then { si with machine := pj_str "ia64".toList }
          else if a = PROCESSOR_ARCHITECTURE_INTEL then { si with machine := pj_str "i386".toList }
          else si
      { s with si := si }
  else s

/-- Lines 178-218, SDK info: the first branch of the `#if` chain whose
condition holds. -/
def sdk_info (b : Build) (si : pj_sys_info) : pj_sys_info :=
  match b.GLIBC with
  | some glibc =>
    { si with sdk_ver := ((glibc <<< 24) ||| (b.GLIBC_MINOR <<< 16)) % 2 ^ 32,
              sdk_name := pj_str "glibc".toList }
  | none =>
  match b.GNU_LIBRARY with
  | some gnu =>
    { si with sdk_ver := ((gnu <<< 24) ||| (b.GNU_LIBRARY_MINOR <<< 16)) % 2 ^ 32,
              sdk_name := pj_str "libc".toList }
  | none =>
  match b.UCLIBC with
  | some _ =>
    { si with sdk_ver := ((b.UCLIBC_MAJOR <<< 24) ||| (b.UCLIBC_MINOR <<< 16)) % 2 ^ 32,
              sdk_name := pj_str "uclibc".toList }
  | none =>
  match b.WIN32_WCE.filter (fun wce => decide (wce ≠ 0)) with
  | some wce =>
    let v :=
      if wce ≤ 500 then
        ((wce / 100) <<< 24) ||| (((wce % 100) / 10) <<< 16) ||| ((wce % 10) <<< 8)
      else
        (((wce &&& 0xFF00) >>> 8) <<< 24) ||| (((wce &&& 0x00F0) >>> 4) <<< 16) |||
          (((wce &&& 0x000F) >>> 0) <<< 8)
    { si with sdk_ver := v % 2 ^ 32, sdk_name := pj_str "cesdk".toList }
  | none =>
  match b.MSC_VER with
  | some msc =>
    { si with sdk_ver := (((msc / 100) <<< 24) ||| (((msc % 100) / 10) <<< 16) |||
                          ((msc % 10) <<< 8)) % 2 ^ 32,
              sdk_name := pj_str "msvc".toList }
  | none => si

/-- What the conversion `%s` prints for the pointer `ptr`: the C string that
starts there. -/
def fmt_s (p : Platform) (buf : List Char) : char_ptr → List Char
  | .null => c_str p.null_s
  | .arena off => c_str (buf.drop off)
  | .literal s => c_str s

/-- The text that the format `"%s%s/%s/%s%s"` of lines 228-234 denotes. -/
def compose_info (p : Platform) (s : DetectState) : List Char :=
  fmt_s p s.si_buffer s.si.os_name.ptr ++ ver_info s.si.os_ver ++ ['/'] ++
    fmt_s p s.si_buffer s.si.machine.ptr ++ ['/'] ++
    fmt_s p s.si_buffer s.si.sdk_name.ptr ++ ver_info s.si.sdk_ver

/-- Modelled from the spec: `pj_ansi_snprintf` (in `pj/compat/string.h`) is
not part of the sources; it is the C function `snprintf`, which leaves at
most `size - 1` characters of the text in the buffer and returns the length
of the whole text. -/
def pj_ansi_snprintf (size : Nat) (text : List Char) : List Char × Nat :=
  (text.take (size - 1), text.length)

/-- Lines 223-238, the info string. -/
def build_info (p : Platform) (s : DetectState) : DetectState :=
  let r := pj_ansi_snprintf PJ_SYS_INFO_BUFFER_SIZE (compose_info p s)
  let tmp := r.1
  let len := r.2
  if len > 0 ∧ len < PJ_SYS_INFO_BUFFER_SIZE then ALLOC_CP_STR tmp .info s
  else s

/-- The state after the probing steps and before the info string is built
(lines 105-218). -/
def probe (b : Build) (p : Platform) (s : DetectState) : DetectState :=
  let s := machine_os_info b p s
  { s with si := sdk_info b s.si }

/-- The function `pj_get_sys_info` (lines 81-242) as a transformer of the
statics. The value it returns, `&si`, is the field `si` of the result. -/
def pj_get_sys_info (b : Build) (p : Platform) (st : Statics) : Statics :=
  if st.si_initialized then st
  else
    let s := build_info p (probe b p (DetectState.enter st))
    { si_buffer := s.si_buffer, si := s.si, si_initialized := true }

/-! ## Reference definitions, written from the specification -/

/-- The reference definition of the decode step (specification 4.1): empty
for 0; otherwise `-a.b`, followed by `.c` when the low 16 bits are non-zero,
followed by `.d` when the low 8 bits are non-zero, where `a b c d` are the
bytes of `v` from most to least significant. -/
def ver_info_ref (v : Nat) : List Char :=
  let a := v / 2 ^ 24 % 256
  let b := v / 2 ^ 16 % 256
  let c := v / 2 ^ 8 % 256
  let d := v % 256
  if v = 0 then []
  else if v % 2 ^ 16 = 0 then
    "-".toList ++ (Nat.repr a).toList ++ ".".toList ++ (Nat.repr b).toList
  else if v % 2 ^ 8 = 0 then
    "-".toList ++ (Nat.repr a).toList ++ ".".toList ++ (Nat.repr b).toList ++
      ".".toList ++ (Nat.repr c).toList
  else
    "-".toList ++ (Nat.repr a).toList ++ ".".toList ++ (Nat.repr b).toList ++
      ".".toList ++ (Nat.repr c).toList ++ ".".toList ++ (Nat.repr d).toList

/-! ## Arena vocabulary for the properties -/

/-- A sequence of `ALLOC_CP_STR` stores, each a text and its destination
field, performed in order. -/
def run_stores (stores : List (List Char × Field)) (s : DetectState) : DetectState :=
  stores.foldl (fun s x => ALLOC_CP_STR x.1 x.2 s) s

/-- The arena is a buffer of `PJ_SYS_INFO_BUFFER_SIZE` bytes and `left` does
not exceed it. -/
def DetectState.wf (s : DetectState) : Prop :=
  s.si_buffer.length = PJ_SYS_INFO_BUFFER_SIZE ∧ s.left ≤ PJ_SYS_INFO_BUFFER_SIZE

/-- Every field that points into the arena has its slot, terminator
included, in the part already handed out. -/
def DetectState.slots_used (s : DetectState) : Prop :=
  ∀ f off n, s.si.get f = { ptr := .arena off, slen := n } →
    off + n + 1 ≤ PJ_SYS_INFO_BUFFER_SIZE - s.left

/-- The view agrees with the C string at its pointer: `slen` is its
`strlen`, and a null pointer goes with length 0. -/
def view_ok (buf : List Char) (v : pj_str_t) : Prop :=
  match v.ptr with
  | .null => v.slen = 0
  | .arena off => pj_ansi_strlen (buf.drop off) = v.slen
  | .literal s => pj_ansi_strlen s = v.slen

/-- The invariant of the detection body: a well-formed arena whose handed
out part holds the slot of every field, each view agreeing with the C string
at its pointer. -/
def DetectState.inv (s : DetectState) : Prop :=
  s.wf ∧ s.slots_used ∧ ∀ f, view_ok s.si_buffer (s.si.get f)

/-! ## Release string vocabulary, written from the specification -/

/-- The tokens of a release string: the maximal runs of characters other
than `.` and `-`. -/
def tokens (s : List Char) : List (List Char) :=
  (s.splitOnP (fun c => decide (c ∈ release_delims))).filter (fun t => !t.isEmpty)

/-- The token starts with a digit. -/
def starts_with_digit : List Char → Bool
  | [] => false
  | c :: _ => c.isDigit

/-- The value of a decimal numeral. -/
def decimal_value (t : List Char) : Nat :=
  t.foldl (fun n c => n * 10 + (c.toNat - 48)) 0

/-- The tokens that precede the first token not starting with a digit. -/
def leading_tokens (s : List Char) : List (List Char) :=
  (tokens s).takeWhile starts_with_digit

/-- The value of the `i`-th leading token, 0 when there is none. -/
def token_value (s : List Char) (i : Nat) : Nat :=
  ((leading_tokens s)[i]?.map decimal_value).getD 0

/-- The loop of lines 117-128 read over the list of tokens that `strtok`
yields one by one. -/
def pack_tokens : Nat → Nat → List (List Char) → Nat → Nat
  | 0, _, _, os_ver => os_ver
  | _ + 1, _, [], os_ver => os_ver
  | k + 1, i, tok :: toks, os_ver =>
    if !pj_isdigit (tok.headD NUL) then os_ver
    else pack_tokens k (i + 1) toks (os_ver ||| (atoi tok <<< ((3 - i) * 8)) % 2 ^ 32)

/-- Line 225: the size of the buffers `os_ver` and `sdk_ver` that
`ver_info` writes to. -/
def VER_BUFFER_SIZE : Nat := 20

/-! ## Version field vocabulary, written from the specification -/

/-- The 8-bit field `k` of a packed version, counted from the most
significant byte: 0 is major, 1 minor, 2 patch, 3 build. -/
def ver_field (v k : Nat) : Nat :=
  v / 2 ^ ((3 - k) * 8) % 256

/-- The token is a plain decimal number: digits only, at least one. -/
def is_decimal (t : List Char) : Bool :=
  !t.isEmpty && t.all Char.isDigit

/-- The composed summary of the specification (4.3, step 4) over the fields
of a descriptor: `<osName><decoded osVersion>/<machine>/<sdkName><decoded
sdkVersion>`, a field detected as empty contributing an empty segment. -/
def summary_of_fields (buf : List Char) (si : pj_sys_info) : List Char :=
  si.os_name.text buf ++ ver_info si.os_ver ++ ['/'] ++ si.machine.text buf ++ ['/'] ++
    si.sdk_name.text buf ++ ver_info si.sdk_ver

/-- The last dotted component of a text: the characters after its last
`.`. -/
def last_component (s : List Char) : List Char :=
  (s.reverse.takeWhile (fun c => c != '.')).reverse

/-- Two fields that both point into the arena have slots, terminators
included, that do not overlap. -/
def DetectState.slots_disjoint (s : DetectState) : Prop :=
  ∀ f g off1 n1 off2 n2, f ≠ g →
    s.si.get f = { ptr := .arena off1, slen := n1 } →
    s.si.get g = { ptr := .arena off2, slen := n2 } →
    off1 + n1 + 1 ≤ off2 ∨ off2 + n2 + 1 ≤ off1

/-- The statics as a caller finds them that passed the test of line 88
before the first detection set the flag at line 240: the descriptor and the
arena of that detection, the flag still clear. -/
def Statics.before_flag (st : Statics) : Statics :=
  { st with si_initialized := false }

/-! ## Sample inputs -/

/-- A build with `uname` against glibc 2.31. -/
def sample_build : Build :=
  { PJ_HAS_UNAME := true, MSC_VER := none, PJ_WIN32_WINCE := false,
    GLIBC := some 2, GLIBC_MINOR := 31, GNU_LIBRARY := some 6, GNU_LIBRARY_MINOR := 0,
    UCLIBC := none, UCLIBC_MAJOR := 0, UCLIBC_MINOR := 0, WIN32_WCE := none }

/-- A Linux 5.15.0 host on x86_64 whose C library prints `(null)` for a null
`%s` argument. -/
def sample_platform : Platform :=
  { uname := some { sysname := "Linux".toList, release := "5.15.0".toList,
                    machine := "x86_64".toList },
    GetVersionInfoEx := none, wProcessorArchitecture := 0, null_s := "(null)".toList }

/-- The same host with `uname` failing. -/
def sample_platform_uname_fails : Platform :=
  { sample_platform with uname := none }

/-- A host whose `uname` reports a machine name of 20 characters and a
system name of 43 characters: after `machine` is stored 43 bytes are left,
one too few for the system name and its terminator. -/
def sample_platform_long_sysname : Platform :=
  { sample_platform with
    uname := some { sysname := List.replicate 43 's', release := "5.15.0".toList,
                    machine := List.replicate 20 'm' } }

/-- The sample host reporting the release string `release`. -/
def sample_platform_release (release : List Char) : Platform :=
  { sample_platform with
    uname := some { sysname := "Linux".toList, release := release,
                    machine := "x86_64".toList } }

/-! # Theorems -/

/-! ## Bit fields -/

theorem and_mask_shiftRight (v k n : Nat) :
    (v &&& ((2 ^ n - 1) <<< k)) >>> k = v / 2 ^ k % 2 ^ n := by
  apply Nat.eq_of_testBit_eq
  intro i
  rw [← Nat.shiftRight_eq_div_pow]
  simp only [Nat.testBit_shiftRight, Nat.testBit_and, Nat.testBit_shiftLeft,
    Nat.testBit_two_pow_sub_one, Nat.testBit_mod_two_pow]
  by_cases h : i < n <;> simp [h, Bool.and_comm]

theorem byte3 (v : Nat) : (v &&& 0xFF000000) >>> 24 = v / 2 ^ 24 % 256 :=
  and_mask_shiftRight v 24 8
theorem byte2 (v : Nat) : (v &&& 0x00FF0000) >>> 16 = v / 2 ^ 16 % 256 :=
  and_mask_shiftRight v 16 8
theorem byte1 (v : Nat) : (v &&& 0xFF00) >>> 8 = v / 2 ^ 8 % 256 :=
  and_mask_shiftRight v 8 8
theorem byte0 (v : Nat) : v &&& 0xFF = v % 256 :=
  Nat.and_pow_two_sub_one_eq_mod v 8
theorem low16 (v : Nat) : v &&& 0xFFFF = v % 2 ^ 16 :=
  Nat.and_pow_two_sub_one_eq_mod v 16

theorem repr_toList (n : Nat) : (Nat.repr n).toList = fmt_u n := rfl

/-- C1: `ver_info` equals its reference definition for every value (so for
every 32-bit value): empty for 0, otherwise `-a.b`, `-a.b.c` or `-a.b.c.d`
according to the low 16 and the low 8 bits. The packed (1,2,3,4) gives
`-1.2.3.4`, (1,2,0,0) gives `-1.2` and (0,0,0,0) gives the empty string. -/
theorem ver_info_eq_ref :
    (∀ v : Nat, ver_info v = ver_info_ref v) ∧
    ver_info ((1 <<< 24) ||| (2 <<< 16) ||| (3 <<< 8) ||| 4) = "-1.2.3.4".toList ∧
    ver_info ((1 <<< 24) ||| (2 <<< 16) ||| (0 <<< 8) ||| 0) = "-1.2".toList ∧
    ver_info ((0 <<< 24) ||| (0 <<< 16) ||| (0 <<< 8) ||| 0) = "".toList := by
  refine ⟨fun v => ?_, by decide, by decide, by decide⟩
  unfold ver_info ver_info_ref
  simp only [byte3, byte2, byte1, byte0, low16, repr_toList]
  by_cases h0 : v = 0
  · simp [h0]
  · by_cases h16 : v % 2 ^ 16 = 0
    · simp [h0, h16]
    · by_cases h8 : v % 2 ^ 8 = 0
      · simp [h0, h16, h8]
      · simp [h0, h16, h8]

/-! ## The arena -/

theorem pj_memcpy_length (src : List Char) : ∀ (dst : List Char) (off : Nat),
    (pj_memcpy dst off src).length = dst.length := by
  induction src with
  | nil => intro dst off; rfl
  | cons c cs ih => intro dst off; simp [pj_memcpy, ih]

theorem pj_memcpy_getElem? (src : List Char) : ∀ (dst : List Char) (off i : Nat),
    (pj_memcpy dst off src)[i]? =
      if off ≤ i ∧ i < off + src.length ∧ i < dst.length then src[i - off]? else dst[i]? := by
  induction src with
  | nil =>
    intro dst off i
    rw [pj_memcpy, if_neg (fun h => by have := h.1; have := h.2.1; simp at *; omega)]
  | cons c cs ih =>
    intro dst off i
    rw [pj_memcpy, ih]
    simp only [List.length_set, List.length_cons]
    by_cases h1 : off + 1 ≤ i
    · by_cases h2 : i < off + 1 + cs.length ∧ i < dst.length
      · have e : i - off = (i - (off + 1)) + 1 := by omega
        rw [if_pos ⟨h1, h2⟩, if_pos ⟨by omega, by omega, h2.2⟩, e, List.getElem?_cons_succ]
      · rw [if_neg (fun h => h2 h.2), if_neg (fun h => h2 ⟨by omega, h.2.2⟩),
          List.getElem?_set_ne (by omega)]
    · rw [if_neg (fun h => h1 h.1)]
      by_cases h3 : i = off
      · subst h3
        by_cases h4 : i < dst.length
        · rw [if_pos ⟨by omega, by omega, h4⟩]; simp [h4]
        · rw [if_neg (fun h => h4 h.2.2), List.getElem?_eq_none (by simp; omega), List.getElem?_eq_none (by omega)]
      · rw [if_neg (fun h => by omega), List.getElem?_set_ne (by omega)]

theorem getElem?_drop_take (l : List Char) (off n j : Nat) :
    ((l.drop off).take n)[j]? = if j < n then l[off + j]? else none := by
  by_cases h : j < n
  · rw [if_pos h, List.getElem?_take_of_lt h, List.getElem?_drop]
  · rw [if_neg h, List.getElem?_take_eq_none (by omega)]

/-- The bytes just written read back. -/
theorem pj_memcpy_readback (src dst : List Char) (off : Nat)
    (h : off + src.length ≤ dst.length) :
    ((pj_memcpy dst off src).drop off).take src.length = src := by
  apply List.ext_getElem?
  intro j
  rw [getElem?_drop_take, pj_memcpy_getElem?]
  by_cases hj : j < src.length
  · rw [if_pos hj, if_pos ⟨by omega, by omega, by omega⟩]
    congr 1; omega
  · rw [if_neg hj, List.getElem?_eq_none (by omega)]

/-- Bytes below the write offset are not touched. -/
theorem pj_memcpy_below (src dst : List Char) (off i : Nat) (h : i < off) :
    (pj_memcpy dst off src)[i]? = dst[i]? := by
  rw [pj_memcpy_getElem?, if_neg (fun h2 => by omega)]

theorem c_str_length_eq (str : List Char) : (c_str str).length = pj_ansi_strlen str := rfl

theorem get_set_same (si : pj_sys_info) (f : Field) (v : pj_str_t) : (si.set f v).get f = v := by
  cases f <;> rfl

theorem get_set_ne (si : pj_sys_info) (f g : Field) (v : pj_str_t) (h : g ≠ f) :
    (si.set f v).get g = si.get g := by
  cases f <;> cases g <;> first | rfl | exact absurd rfl h

theorem ALLOC_CP_STR_of_fail (str : List Char) (f : Field) (s : DetectState)
    (h : pj_ansi_strlen str = 0 ∨ s.left < pj_ansi_strlen str + 1) :
    ALLOC_CP_STR str f s = s := by
  unfold ALLOC_CP_STR
  rw [if_neg]
  rintro ⟨h1, h2⟩
  rcases h with h | h
  · exact h1 h
  · omega

theorem ALLOC_CP_STR_of_ok (str : List Char) (f : Field) (s : DetectState)
    (h1 : pj_ansi_strlen str ≠ 0) (h2 : pj_ansi_strlen str + 1 ≤ s.left) :
    ALLOC_CP_STR str f s =
      { si_buffer := pj_memcpy s.si_buffer (PJ_SYS_INFO_BUFFER_SIZE - s.left) (c_str str ++ [NUL]),
        si := s.si.set f { ptr := .arena (PJ_SYS_INFO_BUFFER_SIZE - s.left),
                           slen := pj_ansi_strlen str },
        left := s.left - (pj_ansi_strlen str + 1) } := by
  unfold ALLOC_CP_STR
  rw [if_pos ⟨h1, h2⟩]

/-- C5: the store fails exactly when the text is empty or does not fit with
its terminator, and a failed store is a no-op: the state (descriptor, `left`
and arena bytes) is the state before, in particular the destination field,
the remaining count and every arena byte. -/
theorem ALLOC_CP_STR_fails_iff (str : List Char) (f : Field) (s : DetectState) :
    (ALLOC_CP_STR str f s = s ↔
      (pj_ansi_strlen str = 0 ∨ s.left < pj_ansi_strlen str + 1)) ∧
    ((pj_ansi_strlen str = 0 ∨ s.left < pj_ansi_strlen str + 1) →
      (ALLOC_CP_STR str f s).si.get f = s.si.get f ∧
      (ALLOC_CP_STR str f s).left = s.left ∧
      ∀ i : Nat, (ALLOC_CP_STR str f s).si_buffer[i]? = s.si_buffer[i]?) := by
  refine ⟨⟨fun h => ?_, ALLOC_CP_STR_of_fail str f s⟩, fun h => ?_⟩
  · by_contra hc
    have h1 : pj_ansi_strlen str ≠ 0 := fun e => hc (Or.inl e)
    have h2 : pj_ansi_strlen str + 1 ≤ s.left := by
      by_contra e; exact hc (Or.inr (by omega))
    have e := congrArg DetectState.left h
    rw [ALLOC_CP_STR_of_ok str f s h1 h2] at e
    simp only at e
    omega
  · rw [ALLOC_CP_STR_of_fail str f s h]
    exact ⟨rfl, rfl, fun _ => rfl⟩

/-- A store into a field four bytes long of an arena with three bytes left
fails. -/
theorem ALLOC_CP_STR_fails_iff_witness :
    ALLOC_CP_STR "abc".toList .os_name
        { si_buffer := List.replicate 64 'x', si := .zero, left := 3 } =
      { si_buffer := List.replicate 64 'x', si := .zero, left := 3 } :=
  (ALLOC_CP_STR_fails_iff "abc".toList .os_name
    { si_buffer := List.replicate 64 'x', si := .zero, left := 3 }).1.2
    (Or.inr (by decide))

/-- After a successful store the bytes of the new slot are the text and
its terminator. -/
theorem ALLOC_CP_STR_readback (str : List Char) (f : Field) (s : DetectState)
    (hwf : s.wf) (h1 : pj_ansi_strlen str ≠ 0) (h2 : pj_ansi_strlen str + 1 ≤ s.left) :
    ((ALLOC_CP_STR str f s).si_buffer.drop (PJ_SYS_INFO_BUFFER_SIZE - s.left)).take
      (pj_ansi_strlen str + 1) = c_str str ++ [NUL] := by
  obtain ⟨hlen, hleft⟩ := hwf
  rw [ALLOC_CP_STR_of_ok str f s h1 h2]
  have := pj_memcpy_readback (c_str str ++ [NUL]) s.si_buffer
    (PJ_SYS_INFO_BUFFER_SIZE - s.left)
    (by simp only [List.length_append, List.length_singleton, c_str_length_eq]; omega)
  simpa only [List.length_append, List.length_singleton, c_str_length_eq] using this

/-- After a successful store the destination field is the view of the new
slot. -/
theorem ALLOC_CP_STR_view (str : List Char) (f : Field) (s : DetectState)
    (h1 : pj_ansi_strlen str ≠ 0) (h2 : pj_ansi_strlen str + 1 ≤ s.left) :
    (ALLOC_CP_STR str f s).si.get f =
      { ptr := .arena (PJ_SYS_INFO_BUFFER_SIZE - s.left), slen := pj_ansi_strlen str } := by
  rw [ALLOC_CP_STR_of_ok str f s h1 h2]
  exact get_set_same _ _ _

/-- After a successful store the destination field reads the text. -/
theorem ALLOC_CP_STR_text (str : List Char) (f : Field) (s : DetectState)
    (hwf : s.wf) (h1 : pj_ansi_strlen str ≠ 0) (h2 : pj_ansi_strlen str + 1 ≤ s.left) :
    ((ALLOC_CP_STR str f s).si.get f).text (ALLOC_CP_STR str f s).si_buffer = c_str str := by
  have hrb := ALLOC_CP_STR_readback str f s hwf h1 h2
  rw [ALLOC_CP_STR_view str f s h1 h2]
  simp only [pj_str_t.text]
  have := congrArg (List.take (pj_ansi_strlen str)) hrb
  rw [List.take_take, Nat.min_eq_left (Nat.le_succ _)] at this
  rw [this, ← c_str_length_eq, List.take_left]

/-- C6: a store of a non-empty text that fits sets the destination field
to a view of `len` characters at offset `capacity - left`, which reads back
the text followed by a terminator, and takes `len + 1` from `left`. -/
theorem ALLOC_CP_STR_success (str : List Char) (f : Field) (s : DetectState)
    (hwf : s.wf) (h1 : pj_ansi_strlen str ≠ 0) (h2 : s.left ≥ pj_ansi_strlen str + 1) :
    (ALLOC_CP_STR str f s).si.get f =
      { ptr := .arena (PJ_SYS_INFO_BUFFER_SIZE - s.left), slen := pj_ansi_strlen str } ∧
    ((ALLOC_CP_STR str f s).si_buffer.drop (PJ_SYS_INFO_BUFFER_SIZE - s.left)).take
      (pj_ansi_strlen str + 1) = c_str str ++ [NUL] ∧
    ((ALLOC_CP_STR str f s).si.get f).text (ALLOC_CP_STR str f s).si_buffer = c_str str ∧
    (ALLOC_CP_STR str f s).left + (pj_ansi_strlen str + 1) = s.left := by
  refine ⟨ALLOC_CP_STR_view str f s h1 h2, ALLOC_CP_STR_readback str f s hwf h1 h2,
    ALLOC_CP_STR_text str f s hwf h1 h2, ?_⟩
  rw [ALLOC_CP_STR_of_ok str f s h1 h2]
  simp only
  omega

/-- The first store of a detection: `x86_64` into `machine`. -/
theorem ALLOC_CP_STR_success_witness :
    (ALLOC_CP_STR "x86_64".toList .machine (DetectState.enter Statics.zero)).si.get .machine =
      { ptr := .arena 0, slen := 6 } ∧
    ((ALLOC_CP_STR "x86_64".toList .machine
      (DetectState.enter Statics.zero)).si_buffer.drop 0).take 7 = "x86_64".toList ++ [NUL] ∧
    (ALLOC_CP_STR "x86_64".toList .machine (DetectState.enter Statics.zero)).left + 7 = 64 :=
  have h := ALLOC_CP_STR_success "x86_64".toList .machine (DetectState.enter Statics.zero)
    ⟨by decide, by decide⟩ (by decide) (by decide)
  ⟨h.1, h.2.1, h.2.2.2⟩

theorem ALLOC_CP_STR_cases (str : List Char) (f : Field) (s : DetectState) :
    ALLOC_CP_STR str f s = s ∨
    (pj_ansi_strlen str ≠ 0 ∧ pj_ansi_strlen str + 1 ≤ s.left ∧
      ALLOC_CP_STR str f s =
      { si_buffer := pj_memcpy s.si_buffer (PJ_SYS_INFO_BUFFER_SIZE - s.left) (c_str str ++ [NUL]),
        si := s.si.set f { ptr := .arena (PJ_SYS_INFO_BUFFER_SIZE - s.left),
                           slen := pj_ansi_strlen str },
        left := s.left - (pj_ansi_strlen str + 1) }) := by
  by_cases h : pj_ansi_strlen str ≠ 0 ∧ pj_ansi_strlen str + 1 ≤ s.left
  · exact Or.inr ⟨h.1, h.2, ALLOC_CP_STR_of_ok str f s h.1 h.2⟩
  · refine Or.inl (ALLOC_CP_STR_of_fail str f s ?_)
    by_cases h0 : pj_ansi_strlen str = 0
    · exact Or.inl h0
    · exact Or.inr (by by_contra e; exact h ⟨h0, by omega⟩)

theorem ALLOC_CP_STR_left_le (str : List Char) (f : Field) (s : DetectState) :
    (ALLOC_CP_STR str f s).left ≤ s.left := by
  rcases ALLOC_CP_STR_cases str f s with h | ⟨_, _, h⟩ <;> rw [h]
  simp only; omega

theorem ALLOC_CP_STR_wf (str : List Char) (f : Field) (s : DetectState) (h : s.wf) :
    (ALLOC_CP_STR str f s).wf := by
  rcases ALLOC_CP_STR_cases str f s with e | ⟨_, _, e⟩ <;> rw [e]
  · exact h
  · exact ⟨by simp only [pj_memcpy_length]; exact h.1, by simp only; have := h.2; omega⟩

theorem ALLOC_CP_STR_below (str : List Char) (f : Field) (s : DetectState) (i : Nat)
    (hi : i < PJ_SYS_INFO_BUFFER_SIZE - s.left) :
    (ALLOC_CP_STR str f s).si_buffer[i]? = s.si_buffer[i]? := by
  rcases ALLOC_CP_STR_cases str f s with e | ⟨_, _, e⟩ <;> rw [e]
  exact pj_memcpy_below _ _ _ _ hi

theorem ALLOC_CP_STR_get_ne (str : List Char) (f g : Field) (s : DetectState) (h : g ≠ f) :
    (ALLOC_CP_STR str f s).si.get g = s.si.get g := by
  rcases ALLOC_CP_STR_cases str f s with e | ⟨_, _, e⟩ <;> rw [e]
  exact get_set_ne _ _ _ _ h

theorem ALLOC_CP_STR_slots_used (str : List Char) (f : Field) (s : DetectState)
    (hwf : s.wf) (h : s.slots_used) : (ALLOC_CP_STR str f s).slots_used := by
  rcases ALLOC_CP_STR_cases str f s with e | ⟨_, h2, e⟩ <;> rw [e]
  · exact h
  · intro g off n hg
    simp only at hg ⊢
    have := hwf.2
    by_cases hgf : g = f
    · subst hgf
      rw [get_set_same] at hg
      injection hg with hp hn
      injection hp with hp
      omega
    · rw [get_set_ne _ _ _ _ hgf] at hg
      have := h g off n hg
      omega

theorem run_stores_nil (s : DetectState) : run_stores [] s = s := rfl

theorem run_stores_cons (x : List Char × Field) (xs : List (List Char × Field))
    (s : DetectState) : run_stores (x :: xs) s = run_stores xs (ALLOC_CP_STR x.1 x.2 s) := rfl

theorem run_stores_inv (xs : List (List Char × Field)) : ∀ s : DetectState,
    s.wf → s.slots_used → (run_stores xs s).wf ∧ (run_stores xs s).slots_used := by
  induction xs with
  | nil => intro s h1 h2; exact ⟨h1, h2⟩
  | cons x xs ih =>
    intro s h1 h2
    rw [run_stores_cons]
    exact ih _ (ALLOC_CP_STR_wf _ _ _ h1) (ALLOC_CP_STR_slots_used _ _ _ h1 h2)

theorem run_stores_frame (xs : List (List Char × Field)) : ∀ s : DetectState,
    (run_stores xs s).left ≤ s.left ∧
    (∀ i : Nat, i < PJ_SYS_INFO_BUFFER_SIZE - s.left →
      (run_stores xs s).si_buffer[i]? = s.si_buffer[i]?) ∧
    (∀ g : Field, g ∉ xs.map Prod.snd → (run_stores xs s).si.get g = s.si.get g) := by
  induction xs with
  | nil => intro s; exact ⟨Nat.le_refl _, fun _ _ => rfl, fun _ _ => rfl⟩
  | cons x xs ih =>
    intro s
    rw [run_stores_cons]
    obtain ⟨a, b, c⟩ := ih (ALLOC_CP_STR x.1 x.2 s)
    have hl := ALLOC_CP_STR_left_le x.1 x.2 s
    refine ⟨Nat.le_trans a hl, fun i hi => ?_, fun g hg => ?_⟩
    · rw [b i (by omega), ALLOC_CP_STR_below _ _ _ _ hi]
    · simp only [List.map_cons, List.mem_cons, not_or] at hg
      rw [c g hg.2, ALLOC_CP_STR_get_ne _ _ _ _ hg.1]

theorem enter_zero_wf : (DetectState.enter Statics.zero).wf :=
  ⟨by decide, Nat.le_refl _⟩

theorem enter_zero_slots_used : (DetectState.enter Statics.zero).slots_used := by
  intro f off n h
  cases f <;> simp [DetectState.enter, Statics.zero, pj_sys_info.get, pj_sys_info.zero,
    pj_str_t.zero] at h

/-- Two buffers that agree below `bound` give the same bytes in any range
below `bound`. -/
theorem drop_take_congr (b1 b2 : List Char) (off n bound : Nat)
    (h : ∀ i : Nat, i < bound → b2[i]? = b1[i]?) (hb : off + n ≤ bound) :
    (b2.drop off).take n = (b1.drop off).take n := by
  apply List.ext_getElem?
  intro j
  rw [getElem?_drop_take, getElem?_drop_take]
  by_cases hj : j < n
  · rw [if_pos hj, if_pos hj, h _ (by omega)]
  · rw [if_neg hj, if_neg hj]

/-- C7: in a sequence of stores that starts on the zero-filled statics,
after any number of stores (`pre`) every byte handed out so far keeps its
value through any further stores (`post`), whether they succeed or fail;
every field that points into the arena has its slot, terminator included,
among those bytes; and a field the later stores do not target is the same
view and reads back byte for byte the same. -/
theorem stores_keep_earlier_slots (pre post : List (List Char × Field)) :
    (∀ i : Nat, i < PJ_SYS_INFO_BUFFER_SIZE -
        (run_stores pre (DetectState.enter Statics.zero)).left →
      (run_stores post (run_stores pre (DetectState.enter Statics.zero))).si_buffer[i]? =
        (run_stores pre (DetectState.enter Statics.zero)).si_buffer[i]?) ∧
    (∀ (f : Field) (off n : Nat),
      (run_stores pre (DetectState.enter Statics.zero)).si.get f =
        { ptr := .arena off, slen := n } →
      off + n + 1 ≤ PJ_SYS_INFO_BUFFER_SIZE -
        (run_stores pre (DetectState.enter Statics.zero)).left ∧
      ((run_stores post (run_stores pre (DetectState.enter Statics.zero))).si_buffer.drop
          off).take (n + 1) =
        ((run_stores pre (DetectState.enter Statics.zero)).si_buffer.drop off).take (n + 1)) ∧
    (∀ f : Field, f ∉ post.map Prod.snd →
      (run_stores post (run_stores pre (DetectState.enter Statics.zero))).si.get f =
        (run_stores pre (DetectState.enter Statics.zero)).si.get f ∧
      ((run_stores post (run_stores pre (DetectState.enter Statics.zero))).si.get f).text
          (run_stores post (run_stores pre (DetectState.enter Statics.zero))).si_buffer =
        ((run_stores pre (DetectState.enter Statics.zero)).si.get f).text
          (run_stores pre (DetectState.enter Statics.zero)).si_buffer) := by
  generalize hs1 : run_stores pre (DetectState.enter Statics.zero) = s1
  have hinv := run_stores_inv pre _ enter_zero_wf enter_zero_slots_used
  rw [hs1] at hinv
  obtain ⟨_, hb, hg⟩ := run_stores_frame post s1
  refine ⟨hb, fun f off n hf => ?_, fun f hf => ?_⟩
  · have hu := hinv.2 f off n hf
    exact ⟨hu, drop_take_congr _ _ off (n + 1) _ hb (by omega)⟩
  · refine ⟨hg f hf, ?_⟩
    rw [hg f hf]
    rcases hv : s1.si.get f with ⟨ptr, n⟩
    cases ptr with
    | null => rfl
    | literal t => rfl
    | arena off =>
      have hu := hinv.2 f off n hv
      simp only [pj_str_t.text]
      exact drop_take_congr _ _ off n _ hb (by omega)

/-- After `x86_64` went into `machine`, a store into `os_name` and a store
that does not fit leave `machine` reading the same. -/
theorem stores_keep_earlier_slots_witness :
    ((run_stores [("Linux".toList, Field.os_name), (List.replicate 60 'a', Field.info)]
        (run_stores [("x86_64".toList, Field.machine)]
          (DetectState.enter Statics.zero))).si.get .machine).text
      (run_stores [("Linux".toList, Field.os_name), (List.replicate 60 'a', Field.info)]
        (run_stores [("x86_64".toList, Field.machine)]
          (DetectState.enter Statics.zero))).si_buffer =
    ((run_stores [("x86_64".toList, Field.machine)]
        (DetectState.enter Statics.zero)).si.get .machine).text
      (run_stores [("x86_64".toList, Field.machine)]
        (DetectState.enter Statics.zero)).si_buffer :=
  ((stores_keep_earlier_slots [("x86_64".toList, Field.machine)]
    [("Linux".toList, Field.os_name), (List.replicate 60 'a', Field.info)]).2.2
    .machine (by decide)).2

/-! ## Release parsing -/

theorem splitOnP_eq (d : Char → Bool) : ∀ xs : List Char,
    xs.splitOnP d = xs.takeWhile (fun x => !d x) ::
      (if xs.dropWhile (fun x => !d x) = [] then []
       else ((xs.dropWhile (fun x => !d x)).drop 1).splitOnP d) := by
  intro xs
  induction xs with
  | nil => simp
  | cons y ys ih =>
    rw [List.splitOnP_cons]
    by_cases h : d y = true
    · simp [h, List.takeWhile_cons, List.dropWhile_cons]
    · rw [if_neg h, ih]
      simp [h, List.takeWhile_cons, List.dropWhile_cons, List.modifyHead]

theorem tokens_nil : tokens [] = [] := by
  simp [tokens]

theorem tokens_dropWhile : ∀ s : List Char,
    tokens (s.dropWhile (fun c => decide (c ∈ release_delims))) = tokens s := by
  intro s
  induction s with
  | nil => rfl
  | cons x xs ih =>
    by_cases h : x ∈ release_delims
    · rw [List.dropWhile_cons_of_pos (by simpa using h), ih]
      simp [tokens, List.splitOnP_cons, h]
    · rw [List.dropWhile_cons_of_neg (by simpa using h)]

theorem tokens_strtok (s : List Char) :
    tokens s = match strtok release_delims s with
      | none => []
      | some (tok, rest) => tok :: tokens rest := by
  rw [← tokens_dropWhile s]
  unfold strtok
  have hhead : ∀ c cs, s.dropWhile (fun c => decide (c ∈ release_delims)) = c :: cs →
      c ∉ release_delims := by
    intro c cs e
    have := List.head_dropWhile_not (fun c => decide (c ∈ release_delims)) s
      (by rw [e]; simp)
    simp only [e, List.head_cons] at this
    simpa using this
  rcases hs : s.dropWhile (fun c => decide (c ∈ release_delims)) with _ | ⟨c, cs⟩
  · simp [tokens_nil]
  · have hc := hhead c cs hs
    simp only
    have hne : (c :: cs).takeWhile (fun x => !decide (x ∈ release_delims)) ≠ [] := by
      rw [List.takeWhile_cons_of_pos (by simpa using hc)]; simp
    rw [tokens, splitOnP_eq, List.filter_cons_of_pos (by simpa using hne)]
    congr 1
    by_cases hd : (c :: cs).dropWhile (fun x => !decide (x ∈ release_delims)) = []
    · rw [if_pos hd, hd]; simp [tokens]
    · rw [if_neg hd]; rfl

theorem release_loop_eq_pack_tokens : ∀ (k i : Nat) (s : List Char) (v : Nat),
    release_loop k i (strtok release_delims s) v = pack_tokens k i (tokens s) v := by
  intro k
  induction k with
  | zero => intro i s v; simp [release_loop, pack_tokens]
  | succ k ih =>
    intro i s v
    rw [tokens_strtok s]
    rcases strtok release_delims s with _ | ⟨tok, rest⟩
    · simp [release_loop, pack_tokens]
    · simp only [release_loop, pack_tokens, ih]

theorem parse_release_eq (release : List Char) (v : Nat) :
    parse_release release v = pack_tokens 4 0 (tokens (c_str release)) v :=
  release_loop_eq_pack_tokens 4 0 _ v


theorem pj_isdigit_headD (t : List Char) : pj_isdigit (t.headD NUL) = starts_with_digit t := by
  cases t with
  | nil => decide
  | cons c cs => rfl

theorem atoi_eq_decimal_value (t : List Char) (h : t.all Char.isDigit = true) :
    atoi t = decimal_value t := by
  have e : t.takeWhile pj_isdigit = t := by
    rw [List.takeWhile_eq_self_iff]
    intro x hx
    exact List.all_eq_true.mp h x hx
  unfold atoi decimal_value
  rw [e]
  congr 1
  funext n c
  have : '0'.toNat = 48 := by decide
  rw [this, Nat.mul_comm]

theorem pack_tokens_stop (k i : Nat) (t : List Char) (toks : List (List Char)) (v : Nat)
    (h : starts_with_digit t = false) : pack_tokens k i (t :: toks) v = v := by
  cases k with
  | zero => rfl
  | succ k => rw [pack_tokens, pj_isdigit_headD, h]; rfl

theorem shift_byte_mod (n i : Nat) (hn : n ≤ 255) :
    (n <<< ((3 - i) * 8)) % 2 ^ 32 = n <<< ((3 - i) * 8) := by
  apply Nat.mod_eq_of_lt
  rw [Nat.shiftLeft_eq]
  have h1 : (3 - i) * 8 ≤ 24 := by omega
  have h2 : 2 ^ ((3 - i) * 8) ≤ 2 ^ 24 := Nat.pow_le_pow_right (by decide) h1
  calc n * 2 ^ ((3 - i) * 8) ≤ 255 * 2 ^ 24 := Nat.mul_le_mul hn h2
    _ < 2 ^ 32 := by decide

theorem pack_tokens_step (k i : Nat) (t : List Char) (toks : List (List Char)) (v : Nat)
    (h : starts_with_digit t = true) (hd : t.all Char.isDigit = true)
    (hv : decimal_value t ≤ 255) :
    pack_tokens (k + 1) i (t :: toks) v =
      pack_tokens k (i + 1) toks (v ||| decimal_value t <<< ((3 - i) * 8)) := by
  rw [pack_tokens, pj_isdigit_headD, h, atoi_eq_decimal_value t hd, shift_byte_mod _ i hv]
  rfl

theorem pack_tokens_formula (toks : List (List Char))
    (hnum : ∀ t ∈ (toks.takeWhile starts_with_digit).take 4,
      t.all Char.isDigit = true ∧ decimal_value t ≤ 255) :
    pack_tokens 4 0 toks 0 =
      ((((toks.takeWhile starts_with_digit)[0]?.map decimal_value).getD 0 <<< 24) |||
       (((toks.takeWhile starts_with_digit)[1]?.map decimal_value).getD 0 <<< 16) |||
       (((toks.takeWhile starts_with_digit)[2]?.map decimal_value).getD 0 <<< 8) |||
       ((toks.takeWhile starts_with_digit)[3]?.map decimal_value).getD 0) := by
  rcases toks with _ | ⟨t0, toks⟩
  · simp [pack_tokens]
  by_cases h0 : starts_with_digit t0 = true
  swap
  · rw [pack_tokens_stop _ _ _ _ _ (by simpa using h0)]
    simp [List.takeWhile_cons, h0]
  have f0 := hnum t0 (by simp [List.takeWhile_cons, h0])
  rw [pack_tokens_step _ _ _ _ _ h0 f0.1 f0.2]
  rcases toks with _ | ⟨t1, toks⟩
  · simp [pack_tokens, List.takeWhile_cons, h0]
  by_cases h1 : starts_with_digit t1 = true
  swap
  · rw [pack_tokens_stop _ _ _ _ _ (by simpa using h1)]
    simp [List.takeWhile_cons, h0, h1]
  have f1 := hnum t1 (by simp [List.takeWhile_cons, h0, h1])
  rw [pack_tokens_step _ _ _ _ _ h1 f1.1 f1.2]
  rcases toks with _ | ⟨t2, toks⟩
  · simp [pack_tokens, List.takeWhile_cons, h0, h1]
  by_cases h2 : starts_with_digit t2 = true
  swap
  · rw [pack_tokens_stop _ _ _ _ _ (by simpa using h2)]
    simp [List.takeWhile_cons, h0, h1, h2]
  have f2 := hnum t2 (by simp [List.takeWhile_cons, h0, h1, h2])
  rw [pack_tokens_step _ _ _ _ _ h2 f2.1 f2.2]
  rcases toks with _ | ⟨t3, toks⟩
  · simp [pack_tokens, List.takeWhile_cons, h0, h1, h2]
  by_cases h3 : starts_with_digit t3 = true
  swap
  · rw [pack_tokens_stop _ _ _ _ _ (by simpa using h3)]
    simp [List.takeWhile_cons, h0, h1, h2, h3]
  have f3 := hnum t3 (by simp [List.takeWhile_cons, h0, h1, h2, h3])
  rw [pack_tokens_step _ _ _ _ _ h3 f3.1 f3.2]
  simp [pack_tokens, List.takeWhile_cons, h0, h1, h2, h3]


/-! ## Plumbing of the detection steps -/

theorem ALLOC_CP_STR_os_ver (str : List Char) (f : Field) (s : DetectState) :
    (ALLOC_CP_STR str f s).si.os_ver = s.si.os_ver ∧
    (ALLOC_CP_STR str f s).si.sdk_ver = s.si.sdk_ver := by
  rcases ALLOC_CP_STR_cases str f s with e | ⟨_, _, e⟩ <;> rw [e]
  · exact ⟨rfl, rfl⟩
  · cases f <;> exact ⟨rfl, rfl⟩

theorem sdk_info_keeps (b : Build) (si : pj_sys_info) :
    (sdk_info b si).machine = si.machine ∧ (sdk_info b si).os_name = si.os_name ∧
    (sdk_info b si).os_ver = si.os_ver ∧ (sdk_info b si).info = si.info := by
  unfold sdk_info
  split
  · exact ⟨rfl, rfl, rfl, rfl⟩
  split
  · exact ⟨rfl, rfl, rfl, rfl⟩
  split
  · exact ⟨rfl, rfl, rfl, rfl⟩
  split
  · exact ⟨rfl, rfl, rfl, rfl⟩
  split
  · exact ⟨rfl, rfl, rfl, rfl⟩
  · exact ⟨rfl, rfl, rfl, rfl⟩

/-- The SDK fields that `sdk_info` leaves depend on the fields before only
through `sdk_name` and `sdk_ver`. -/
theorem sdk_info_sdk (b : Build) (si si2 : pj_sys_info)
    (h1 : si.sdk_name = si2.sdk_name) (h2 : si.sdk_ver = si2.sdk_ver) :
    (sdk_info b si).sdk_name = (sdk_info b si2).sdk_name ∧
    (sdk_info b si).sdk_ver = (sdk_info b si2).sdk_ver := by
  unfold sdk_info
  split
  · exact ⟨rfl, rfl⟩
  split
  · exact ⟨rfl, rfl⟩
  split
  · exact ⟨rfl, rfl⟩
  split
  · exact ⟨rfl, rfl⟩
  split
  · exact ⟨rfl, rfl⟩
  · exact ⟨h1, h2⟩

theorem machine_os_info_sdk (b : Build) (p : Platform) (s : DetectState) :
    (machine_os_info b p s).si.sdk_name = s.si.sdk_name ∧
    (machine_os_info b p s).si.sdk_ver = s.si.sdk_ver ∧
    (machine_os_info b p s).si.info = s.si.info := by
  unfold machine_os_info
  split
  · split
    · exact ⟨rfl, rfl, rfl⟩
    · refine ⟨?_, ?_, ?_⟩
      · exact (ALLOC_CP_STR_get_ne _ .os_name .sdk_name _ (by decide)).trans
          (ALLOC_CP_STR_get_ne _ .machine .sdk_name _ (by decide))
      · exact ((ALLOC_CP_STR_os_ver _ _ _).2).trans (ALLOC_CP_STR_os_ver _ _ _).2
      · exact (ALLOC_CP_STR_get_ne _ .os_name .info _ (by decide)).trans
          (ALLOC_CP_STR_get_ne _ .machine .info _ (by decide))
  · split
    · split
      · exact ⟨rfl, rfl, rfl⟩
      · simp only
        split_ifs <;> exact ⟨rfl, rfl, rfl⟩
    · exact ⟨rfl, rfl, rfl⟩

theorem build_info_keeps (p : Platform) (s : DetectState) :
    (build_info p s).si.machine = s.si.machine ∧
    (build_info p s).si.os_name = s.si.os_name ∧
    (build_info p s).si.os_ver = s.si.os_ver ∧
    (build_info p s).si.sdk_name = s.si.sdk_name ∧
    (build_info p s).si.sdk_ver = s.si.sdk_ver := by
  unfold build_info
  simp only
  split
  · exact ⟨ALLOC_CP_STR_get_ne _ .info .machine _ (by decide),
      ALLOC_CP_STR_get_ne _ .info .os_name _ (by decide),
      (ALLOC_CP_STR_os_ver _ _ _).1,
      ALLOC_CP_STR_get_ne _ .info .sdk_name _ (by decide),
      (ALLOC_CP_STR_os_ver _ _ _).2⟩
  · exact ⟨rfl, rfl, rfl, rfl, rfl⟩

theorem pj_get_sys_info_zero (b : Build) (p : Platform) :
    pj_get_sys_info b p Statics.zero =
      { si_buffer := (build_info p (probe b p (DetectState.enter Statics.zero))).si_buffer,
        si := (build_info p (probe b p (DetectState.enter Statics.zero))).si,
        si_initialized := true } := rfl

theorem probe_os_ver_uname (b : Build) (p : Platform) (u : utsname) (s : DetectState)
    (hb : b.PJ_HAS_UNAME = true) (hu : p.uname = some u) :
    (probe b p s).si.os_ver = parse_release u.release s.si.os_ver := by
  unfold probe
  simp only [(sdk_info_keeps b _).2.2.1]
  unfold machine_os_info
  rw [if_pos hb, hu]
  simp only [(ALLOC_CP_STR_os_ver _ _ _).1]

/-- C2: in the `uname` branch, when the tokens of the release string that
precede the first token not starting with a digit are plain decimal numbers
in 0..255, `os_ver` is `n0<<24 | n1<<16 | n2<<8 | n3` with `n_i` the value
of the i-th such token, 0 when there is none. A fifth and later tokens are
ignored: the hypothesis is asked of the first four only and the result does
not mention the others. -/
theorem os_ver_of_release (b : Build) (p : Platform) (u : utsname)
    (hb : b.PJ_HAS_UNAME = true) (hu : p.uname = some u)
    (hnum : ∀ t ∈ (leading_tokens (c_str u.release)).take 4,
      t.all Char.isDigit = true ∧ decimal_value t ≤ 255) :
    (pj_get_sys_info b p Statics.zero).si.os_ver =
      ((token_value (c_str u.release) 0 <<< 24) |||
       (token_value (c_str u.release) 1 <<< 16) |||
       (token_value (c_str u.release) 2 <<< 8) |||
       token_value (c_str u.release) 3) := by
  rw [pj_get_sys_info_zero]
  simp only [(build_info_keeps p _).2.2.1]
  rw [probe_os_ver_uname b p u _ hb hu, parse_release_eq]
  exact pack_tokens_formula _ hnum

/-- The release `5.15.0-91-generic` has the leading tokens 5, 15, 0, 91,
and `os_ver` is 5.15.0.91 packed. -/
theorem os_ver_of_release_witness :
    (pj_get_sys_info sample_build
      { sample_platform with
        uname := some { sysname := "Linux".toList, release := "5.15.0-91-generic".toList,
                        machine := "x86_64".toList } }
      Statics.zero).si.os_ver = 0x050F005B :=
  (os_ver_of_release sample_build
      { sample_platform with
        uname := some { sysname := "Linux".toList, release := "5.15.0-91-generic".toList,
                        machine := "x86_64".toList } }
      { sysname := "Linux".toList, release := "5.15.0-91-generic".toList,
        machine := "x86_64".toList } rfl rfl (by decide)).trans (by decide)

/-! ## Caching and degradation -/

/-- C4: `pj_get_sys_info` leaves `si_initialized` set; a call that finds it
set returns the statics as they are (descriptor and arena unchanged) whatever
the platform answers; so a second call returns the descriptor of the
first. -/
theorem pj_get_sys_info_cached (b : Build) (p p2 : Platform) (st : Statics) :
    (pj_get_sys_info b p st).si_initialized = true ∧
    (st.si_initialized = true → pj_get_sys_info b p st = st) ∧
    pj_get_sys_info b p2 (pj_get_sys_info b p st) = pj_get_sys_info b p st ∧
    (pj_get_sys_info b p2 (pj_get_sys_info b p st)).si = (pj_get_sys_info b p st).si := by
  have h1 : (pj_get_sys_info b p st).si_initialized = true := by
    unfold pj_get_sys_info
    split
    · assumption
    · rfl
  have h2 : ∀ (q : Platform) (t : Statics), t.si_initialized = true →
      pj_get_sys_info b q t = t := by
    intro q t ht
    unfold pj_get_sys_info
    rw [if_pos ht]
  exact ⟨h1, h2 p st, h2 p2 _ h1, by rw [h2 p2 _ h1]⟩

/-- A call on the statics left by a detection, with `uname` now failing,
changes nothing. -/
theorem pj_get_sys_info_cached_witness :
    pj_get_sys_info sample_build sample_platform_uname_fails
        (pj_get_sys_info sample_build sample_platform Statics.zero) =
      pj_get_sys_info sample_build sample_platform Statics.zero :=
  (pj_get_sys_info_cached sample_build sample_platform_uname_fails sample_platform
    (pj_get_sys_info sample_build sample_platform Statics.zero)).2.1 (by decide)

/-- C8: when `uname` fails, the descriptor built on the zero-filled statics
has empty `machine` and `os_name` and `os_ver` 0, and its `sdk_name` and
`sdk_ver` are those built on any other platform `p2`, so those built when
`uname` succeeds: they are what `sdk_info` makes of the build alone. -/
theorem uname_failure_keeps_sdk (b : Build) (p p2 : Platform)
    (hb : b.PJ_HAS_UNAME = true) (hfail : p.uname = none) :
    (pj_get_sys_info b p Statics.zero).si.machine = pj_str_t.zero ∧
    (pj_get_sys_info b p Statics.zero).si.os_name = pj_str_t.zero ∧
    (pj_get_sys_info b p Statics.zero).si.os_ver = 0 ∧
    (pj_get_sys_info b p Statics.zero).si.sdk_name =
      (pj_get_sys_info b p2 Statics.zero).si.sdk_name ∧
    (pj_get_sys_info b p Statics.zero).si.sdk_ver =
      (pj_get_sys_info b p2 Statics.zero).si.sdk_ver ∧
    (pj_get_sys_info b p Statics.zero).si.sdk_name = (sdk_info b pj_sys_info.zero).sdk_name ∧
    (pj_get_sys_info b p Statics.zero).si.sdk_ver = (sdk_info b pj_sys_info.zero).sdk_ver := by
  have hsdk : ∀ q : Platform,
      (pj_get_sys_info b q Statics.zero).si.sdk_name = (sdk_info b pj_sys_info.zero).sdk_name ∧
      (pj_get_sys_info b q Statics.zero).si.sdk_ver = (sdk_info b pj_sys_info.zero).sdk_ver := by
    intro q
    rw [pj_get_sys_info_zero]
    simp only [(build_info_keeps q _).2.2.2.1, (build_info_keeps q _).2.2.2.2]
    unfold probe
    simp only
    exact sdk_info_sdk b _ _ (machine_os_info_sdk b q _).1 (machine_os_info_sdk b q _).2.1
  have hm : machine_os_info b p (DetectState.enter Statics.zero) =
      DetectState.enter Statics.zero := by
    unfold machine_os_info
    rw [if_pos hb, hfail]
  refine ⟨?_, ?_, ?_, (hsdk p).1.trans (hsdk p2).1.symm, (hsdk p).2.trans (hsdk p2).2.symm,
    (hsdk p).1, (hsdk p).2⟩
  · rw [pj_get_sys_info_zero]
    simp only [(build_info_keeps p _).1]
    unfold probe
    simp only [(sdk_info_keeps b _).1, hm]
    rfl
  · rw [pj_get_sys_info_zero]
    simp only [(build_info_keeps p _).2.1]
    unfold probe
    simp only [(sdk_info_keeps b _).2.1, hm]
    rfl
  · rw [pj_get_sys_info_zero]
    simp only [(build_info_keeps p _).2.2.1]
    unfold probe
    simp only [(sdk_info_keeps b _).2.2.1, hm]
    rfl

/-- With glibc 2.31 and `uname` failing, the SDK fields are those of the
run where `uname` succeeds. -/
theorem uname_failure_keeps_sdk_witness :
    (pj_get_sys_info sample_build sample_platform_uname_fails Statics.zero).si.machine =
      pj_str_t.zero ∧
    (pj_get_sys_info sample_build sample_platform_uname_fails Statics.zero).si.sdk_name =
      (pj_get_sys_info sample_build sample_platform Statics.zero).si.sdk_name ∧
    (pj_get_sys_info sample_build sample_platform_uname_fails Statics.zero).si.sdk_ver =
      (pj_get_sys_info sample_build sample_platform Statics.zero).si.sdk_ver :=
  have h := uname_failure_keeps_sdk sample_build sample_platform_uname_fails sample_platform
    rfl rfl
  ⟨h.1, h.2.2.2.1, h.2.2.2.2.1⟩

/-- C9, the code at the failing input: with `uname` failing and glibc 2.31,
`os_name` and `machine` are null pointers when line 228 formats them with
`%s`; with a C library that prints `(null)` for them the stored summary is
`(null)/(null)/glibc-2.31`, not `//glibc-2.31`. -/
theorem info_when_uname_fails :
    (pj_get_sys_info sample_build sample_platform_uname_fails Statics.zero).si.os_name.ptr =
      char_ptr.null ∧
    (pj_get_sys_info sample_build sample_platform_uname_fails Statics.zero).si.machine.ptr =
      char_ptr.null ∧
    (pj_get_sys_info sample_build sample_platform_uname_fails Statics.zero).si.info.text
      (pj_get_sys_info sample_build sample_platform_uname_fails Statics.zero).si_buffer =
      "(null)/(null)/glibc-2.31".toList ∧
    (pj_get_sys_info sample_build sample_platform_uname_fails Statics.zero).si.info.text
      (pj_get_sys_info sample_build sample_platform_uname_fails Statics.zero).si_buffer ≠
      "//glibc-2.31".toList := by
  decide

/-! ## C strings and views -/

theorem c_str_no_NUL (s : List Char) : ∀ c ∈ c_str s, (c != NUL) = true := by
  intro c hc
  exact List.mem_takeWhile_imp (p := fun c => c != NUL) hc

theorem c_str_of_no_NUL (s : List Char) (h : ∀ c ∈ s, (c != NUL) = true) : c_str s = s :=
  List.takeWhile_eq_self_iff.mpr h

theorem c_str_append_NUL (t r : List Char) (h : ∀ c ∈ t, (c != NUL) = true) :
    c_str (t ++ NUL :: r) = t := by
  unfold c_str
  rw [List.takeWhile_append_of_pos h, List.takeWhile_cons_of_neg (by simp), List.append_nil]

theorem take_c_str (s : List Char) : s.take (pj_ansi_strlen s) = c_str s := by
  have h := List.takeWhile_append_dropWhile (fun c => c != NUL) s
  unfold pj_ansi_strlen c_str
  generalize List.takeWhile (fun c => c != NUL) s = t at h ⊢
  rw [← h, List.take_left]

/-- The C string at an offset is decided by as many bytes as its length
plus one. -/
theorem c_str_congr (l1 l2 : List Char) (n : Nat) (h1 : pj_ansi_strlen l1 = n)
    (h : l2.take (n + 1) = l1.take (n + 1)) : c_str l2 = c_str l1 := by
  unfold pj_ansi_strlen at h1
  have e1 : (c_str l1).take (n + 1) = c_str l1 := List.take_of_length_le (by omega)
  have e2 : (c_str l2).take (n + 1) = c_str l1 := by
    unfold c_str at e1 ⊢
    rw [List.take_takeWhile, h, ← List.take_takeWhile, e1]
  have hl : (c_str l2).length < n + 1 := by
    by_contra hc
    have := congrArg List.length e2
    rw [List.length_take, Nat.min_eq_left (by omega)] at this
    omega
  rw [← e2, List.take_of_length_le (by omega)]

theorem fmt_s_eq_text (p : Platform) (buf : List Char) (v : pj_str_t)
    (h : view_ok buf v) (hn : v.slen ≠ 0) : fmt_s p buf v.ptr = v.text buf := by
  rcases v with ⟨ptr, n⟩
  cases ptr with
  | null => exact absurd h hn
  | arena off =>
    simp only [view_ok] at h
    simp only [fmt_s, pj_str_t.text]
    rw [← h, take_c_str]
  | literal s =>
    simp only [view_ok] at h
    simp only [fmt_s, pj_str_t.text]
    rw [← h, take_c_str]

theorem view_ok_pj_str (buf : List Char) (l : List Char) : view_ok buf (pj_str l) := by
  simp [view_ok, pj_str]

theorem view_ok_zero (buf : List Char) : view_ok buf pj_str_t.zero := by
  simp [view_ok, pj_str_t.zero]

theorem enter_zero_inv : (DetectState.enter Statics.zero).inv := by
  refine ⟨enter_zero_wf, enter_zero_slots_used, fun f => ?_⟩
  cases f <;> exact view_ok_zero _

/-- A view whose slot lies in the part handed out stays valid when the rest
of the arena changes. -/
theorem view_ok_congr (b1 b2 : List Char) (v : pj_str_t) (bound : Nat)
    (hb : ∀ i : Nat, i < bound → b2[i]? = b1[i]?)
    (hu : ∀ off n, v = { ptr := .arena off, slen := n } → off + n + 1 ≤ bound)
    (h : view_ok b1 v) : view_ok b2 v ∧ v.text b2 = v.text b1 := by
  rcases v with ⟨ptr, n⟩
  cases ptr with
  | null => exact ⟨h, rfl⟩
  | literal s => exact ⟨h, rfl⟩
  | arena off =>
    have hu2 := hu off n rfl
    simp only [view_ok] at h ⊢
    have e := c_str_congr (b1.drop off) (b2.drop off) n h
      (drop_take_congr b1 b2 off (n + 1) bound hb (by omega))
    refine ⟨?_, ?_⟩
    · unfold pj_ansi_strlen at h ⊢
      rw [e, h]
    · simp only [pj_str_t.text]
      exact drop_take_congr b1 b2 off n bound hb (by omega)

theorem ALLOC_CP_STR_inv (str : List Char) (f : Field) (s : DetectState) (h : s.inv) :
    (ALLOC_CP_STR str f s).inv := by
  obtain ⟨hwf, hu, hv⟩ := h
  refine ⟨ALLOC_CP_STR_wf _ _ _ hwf, ALLOC_CP_STR_slots_used _ _ _ hwf hu, fun g => ?_⟩
  by_cases hgf : g = f
  · subst hgf
    rcases ALLOC_CP_STR_cases str g s with e | ⟨h1, h2, e⟩
    · rw [e]; exact hv g
    · have hrb := ALLOC_CP_STR_readback str g s hwf h1 h2
      rw [ALLOC_CP_STR_view str g s h1 h2]
      simp only [view_ok]
      have := c_str_congr (c_str str ++ NUL :: [])
        ((ALLOC_CP_STR str g s).si_buffer.drop (PJ_SYS_INFO_BUFFER_SIZE - s.left))
        (pj_ansi_strlen str)
        (by unfold pj_ansi_strlen
            rw [c_str_append_NUL _ _ (c_str_no_NUL str)])
        (by rw [hrb]
            exact (List.take_of_length_le (by simp [c_str_length_eq])).symm)
      unfold pj_ansi_strlen
      rw [this, c_str_append_NUL _ _ (c_str_no_NUL str)]
  · rw [ALLOC_CP_STR_get_ne _ _ _ _ hgf]
    exact (view_ok_congr s.si_buffer _ _ (PJ_SYS_INFO_BUFFER_SIZE - s.left)
      (fun i hi => ALLOC_CP_STR_below _ _ _ _ hi) (fun off n e => hu g off n e) (hv g)).1


theorem inv_si_update (s : DetectState) (si2 : pj_sys_info) (h : s.inv)
    (hf : ∀ f, si2.get f = s.si.get f ∨ ∃ l, si2.get f = pj_str l) :
    DetectState.inv { s with si := si2 } := by
  obtain ⟨hwf, hu, hv⟩ := h
  refine ⟨hwf, fun f off n e => ?_, fun f => ?_⟩
  · rcases hf f with e2 | ⟨l, e2⟩
    · exact hu f off n (e2 ▸ e)
    · simp only at e
      rw [e2] at e
      simp [pj_str] at e
  · rcases hf f with e2 | ⟨l, e2⟩
    · simp only; rw [e2]; exact hv f
    · simp only; rw [e2]; exact view_ok_pj_str _ _

theorem sdk_info_get (b : Build) (si : pj_sys_info) (f : Field) :
    (sdk_info b si).get f = si.get f ∨ ∃ l, (sdk_info b si).get f = pj_str l := by
  unfold sdk_info
  split
  · cases f <;> first | exact Or.inl rfl | exact Or.inr ⟨_, rfl⟩
  split
  · cases f <;> first | exact Or.inl rfl | exact Or.inr ⟨_, rfl⟩
  split
  · cases f <;> first | exact Or.inl rfl | exact Or.inr ⟨_, rfl⟩
  split
  · cases f <;> first | exact Or.inl rfl | exact Or.inr ⟨_, rfl⟩
  split
  · cases f <;> first | exact Or.inl rfl | exact Or.inr ⟨_, rfl⟩
  · exact Or.inl rfl

theorem machine_os_info_inv (b : Build) (p : Platform) (s : DetectState) (h : s.inv) :
    (machine_os_info b p s).inv := by
  unfold machine_os_info
  split
  · split
    · exact h
    · exact inv_si_update _ _ (ALLOC_CP_STR_inv _ _ _ (ALLOC_CP_STR_inv _ _ _ h))
        (fun f => by cases f <;> exact Or.inl rfl)
  · split
    · split
      · exact h
      · apply inv_si_update _ _ h
        intro f
        simp only
        split_ifs <;> cases f <;> first | exact Or.inl rfl | exact Or.inr ⟨_, rfl⟩
    · exact h

theorem probe_inv (b : Build) (p : Platform) (s : DetectState) (h : s.inv) :
    (probe b p s).inv :=
  inv_si_update _ _ (machine_os_info_inv b p s h) (fun f => sdk_info_get b _ f)

theorem probe_info (b : Build) (p : Platform) (s : DetectState) :
    (probe b p s).si.info = s.si.info := by
  unfold probe
  simp only [(sdk_info_keeps b _).2.2.2, (machine_os_info_sdk b p s).2.2]

/-! ## The composed text has no terminator inside -/

theorem digitChar_ne_NUL : ∀ m : Nat, m < 10 → (Nat.digitChar m != NUL) = true := by
  decide

theorem no_NUL_nil : ∀ c ∈ ([] : List Char), (c != NUL) = true := by
  intro c hc
  cases hc

theorem no_NUL_cons (x : Char) (l : List Char) (hx : (x != NUL) = true)
    (hl : ∀ c ∈ l, (c != NUL) = true) : ∀ c ∈ x :: l, (c != NUL) = true := by
  intro c hc
  rcases List.mem_cons.mp hc with e | e
  · rw [e]; exact hx
  · exact hl c e

theorem no_NUL_append (a b : List Char) (ha : ∀ c ∈ a, (c != NUL) = true)
    (hb : ∀ c ∈ b, (c != NUL) = true) : ∀ c ∈ a ++ b, (c != NUL) = true := by
  intro c hc
  rcases List.mem_append.mp hc with e | e
  · exact ha c e
  · exact hb c e

theorem toDigitsCore_no_NUL (fuel : Nat) : ∀ (n : Nat) (ds : List Char),
    (∀ c ∈ ds, (c != NUL) = true) →
    ∀ c ∈ Nat.toDigitsCore 10 fuel n ds, (c != NUL) = true := by
  induction fuel with
  | zero => intro n ds h; simpa [Nat.toDigitsCore] using h
  | succ fuel ih =>
    intro n ds h
    have hd : ∀ c ∈ Nat.digitChar (n % 10) :: ds, (c != NUL) = true := by
      intro c hc
      rcases List.mem_cons.mp hc with e | e
      · rw [e]; exact digitChar_ne_NUL _ (Nat.mod_lt _ (by decide))
      · exact h c e
    unfold Nat.toDigitsCore
    simp only
    split
    · exact hd
    · exact ih _ _ hd

theorem fmt_u_no_NUL (n : Nat) : ∀ c ∈ fmt_u n, (c != NUL) = true :=
  toDigitsCore_no_NUL _ _ _ (by simp)

theorem ver_info_no_NUL (v : Nat) : ∀ c ∈ ver_info v, (c != NUL) = true := by
  unfold ver_info
  simp only
  split_ifs
  · exact no_NUL_nil
  · exact no_NUL_append _ _ (no_NUL_append _ _
      (no_NUL_append _ _ (no_NUL_cons _ _ (by decide) (fmt_u_no_NUL _))
        (no_NUL_cons _ _ (by decide) (fmt_u_no_NUL _)))
      (no_NUL_cons _ _ (by decide) (fmt_u_no_NUL _)))
      (no_NUL_cons _ _ (by decide) (fmt_u_no_NUL _))
  · exact no_NUL_append _ _
      (no_NUL_append _ _ (no_NUL_cons _ _ (by decide) (fmt_u_no_NUL _))
        (no_NUL_cons _ _ (by decide) (fmt_u_no_NUL _)))
      (no_NUL_cons _ _ (by decide) (fmt_u_no_NUL _))
  · exact no_NUL_append _ _ (no_NUL_cons _ _ (by decide) (fmt_u_no_NUL _))
      (no_NUL_cons _ _ (by decide) (fmt_u_no_NUL _))

theorem fmt_s_no_NUL (p : Platform) (buf : List Char) (ptr : char_ptr) :
    ∀ c ∈ fmt_s p buf ptr, (c != NUL) = true := by
  cases ptr <;> exact c_str_no_NUL _

theorem compose_info_no_NUL (p : Platform) (s : DetectState) :
    ∀ c ∈ compose_info p s, (c != NUL) = true := by
  unfold compose_info
  exact no_NUL_append _ _ (no_NUL_append _ _ (no_NUL_append _ _ (no_NUL_append _ _
    (no_NUL_append _ _ (no_NUL_append _ _ (fmt_s_no_NUL _ _ _) (ver_info_no_NUL _))
    (no_NUL_cons _ _ (by decide) no_NUL_nil)) (fmt_s_no_NUL _ _ _))
    (no_NUL_cons _ _ (by decide) no_NUL_nil)) (fmt_s_no_NUL _ _ _)) (ver_info_no_NUL _)

theorem compose_info_length_pos (p : Platform) (s : DetectState) :
    0 < (compose_info p s).length := by
  unfold compose_info
  simp only [List.length_append, List.length_cons]
  omega

/-! ## The info string -/

theorem strlen_compose_info (p : Platform) (s : DetectState) :
    pj_ansi_strlen (compose_info p s) = (compose_info p s).length := by
  unfold pj_ansi_strlen
  rw [c_str_of_no_NUL _ (compose_info_no_NUL p s)]

/-- When the composed text does not fit, `build_info` changes nothing. -/
theorem build_info_of_no_fit (p : Platform) (s : DetectState)
    (h : s.left < (compose_info p s).length + 1) : build_info p s = s := by
  unfold build_info pj_ansi_snprintf
  simp only
  split
  · next hc =>
    have e : (compose_info p s).take (PJ_SYS_INFO_BUFFER_SIZE - 1) = compose_info p s :=
      List.take_of_length_le (by omega)
    rw [e]
    exact ALLOC_CP_STR_of_fail _ _ _ (Or.inr (by rw [strlen_compose_info]; exact h))
  · rfl

/-- When the composed text fits, `build_info` is the store of the whole
text. -/
theorem build_info_of_fit (p : Platform) (s : DetectState)
    (hwf : s.wf) (h : (compose_info p s).length + 1 ≤ s.left) :
    build_info p s = ALLOC_CP_STR (compose_info p s) .info s := by
  have hl := hwf.2
  unfold build_info pj_ansi_snprintf
  simp only
  rw [if_pos ⟨compose_info_length_pos p s, by omega⟩,
    List.take_of_length_le (by omega)]

theorem info_exhaustion_aux (p : Platform) (s : DetectState) (hinv : s.inv)
    (h0 : s.si.info = pj_str_t.zero) :
    ((build_info p s).si.info.slen = 0 ↔ s.left < (compose_info p s).length + 1) ∧
    (s.left < (compose_info p s).length + 1 → (build_info p s).si.info = pj_str_t.zero) ∧
    ((build_info p s).si.info.slen ≠ 0 →
      (build_info p s).si.info.text (build_info p s).si_buffer = compose_info p s) := by
  have hwf := hinv.1
  have hpos := compose_info_length_pos p s
  by_cases h : s.left < (compose_info p s).length + 1
  · rw [build_info_of_no_fit p s h, h0]
    exact ⟨⟨fun _ => h, fun _ => rfl⟩, fun _ => rfl, fun hc => absurd rfl hc⟩
  · have hfit : (compose_info p s).length + 1 ≤ s.left := by omega
    have hn : pj_ansi_strlen (compose_info p s) ≠ 0 := by rw [strlen_compose_info]; omega
    have hf : pj_ansi_strlen (compose_info p s) + 1 ≤ s.left := by
      rw [strlen_compose_info]; exact hfit
    rw [build_info_of_fit p s hwf hfit]
    have e : (ALLOC_CP_STR (compose_info p s) .info s).si.info =
        { ptr := .arena (PJ_SYS_INFO_BUFFER_SIZE - s.left),
          slen := pj_ansi_strlen (compose_info p s) } :=
      ALLOC_CP_STR_view (compose_info p s) .info s hn hf
    have et := ALLOC_CP_STR_text (compose_info p s) .info s hwf hn hf
    simp only [pj_sys_info.get] at et
    rw [c_str_of_no_NUL _ (compose_info_no_NUL p s)] at et
    refine ⟨⟨fun hz => ?_, fun hc => absurd hc h⟩, fun hc => absurd hc h, fun _ => et⟩
    rw [e, strlen_compose_info] at hz
    simp only at hz
    omega

/-- The fields other than `info` read the same after `build_info`. -/
theorem build_info_text (p : Platform) (s : DetectState) (hinv : s.inv) (g : Field)
    (hg : g ≠ .info) :
    (build_info p s).si.get g = s.si.get g ∧
    ((build_info p s).si.get g).text (build_info p s).si_buffer =
      (s.si.get g).text s.si_buffer := by
  obtain ⟨hwf, hu, hv⟩ := hinv
  by_cases h : s.left < (compose_info p s).length + 1
  · rw [build_info_of_no_fit p s h]
    exact ⟨rfl, rfl⟩
  · rw [build_info_of_fit p s hwf (by omega), ALLOC_CP_STR_get_ne _ _ _ _ hg]
    exact ⟨rfl, (view_ok_congr s.si_buffer _ _ (PJ_SYS_INFO_BUFFER_SIZE - s.left)
      (fun i hi => ALLOC_CP_STR_below _ _ _ _ hi) (fun off n e => hu g off n e) (hv g)).2⟩

/-- The summary step on the text the code composes itself (`compose_info`,
in which a null field reads as the C library prints a null `%s` argument):
on the zero-filled statics, for every build and platform, `info` is left
empty exactly when that text plus its terminator exceeds what is left of the
arena after the probing steps; `machine`, `os_name`, `os_ver`, `sdk_name`
and `sdk_ver` are what they were before the summary step and read the same;
and an `info` that is not empty is the whole of that text. -/
theorem info_exhaustion (b : Build) (p : Platform) :
    ((pj_get_sys_info b p Statics.zero).si.info.slen = 0 ↔
      (probe b p (DetectState.enter Statics.zero)).left <
        (compose_info p (probe b p (DetectState.enter Statics.zero))).length + 1) ∧
    ((probe b p (DetectState.enter Statics.zero)).left <
        (compose_info p (probe b p (DetectState.enter Statics.zero))).length + 1 →
      (pj_get_sys_info b p Statics.zero).si.info = pj_str_t.zero) ∧
    ((pj_get_sys_info b p Statics.zero).si.machine =
        (probe b p (DetectState.enter Statics.zero)).si.machine ∧
      (pj_get_sys_info b p Statics.zero).si.os_name =
        (probe b p (DetectState.enter Statics.zero)).si.os_name ∧
      (pj_get_sys_info b p Statics.zero).si.os_ver =
        (probe b p (DetectState.enter Statics.zero)).si.os_ver ∧
      (pj_get_sys_info b p Statics.zero).si.sdk_name =
        (probe b p (DetectState.enter Statics.zero)).si.sdk_name ∧
      (pj_get_sys_info b p Statics.zero).si.sdk_ver =
        (probe b p (DetectState.enter Statics.zero)).si.sdk_ver) ∧
    ((pj_get_sys_info b p Statics.zero).si.machine.text
        (pj_get_sys_info b p Statics.zero).si_buffer =
        (probe b p (DetectState.enter Statics.zero)).si.machine.text
          (probe b p (DetectState.enter Statics.zero)).si_buffer ∧
      (pj_get_sys_info b p Statics.zero).si.os_name.text
        (pj_get_sys_info b p Statics.zero).si_buffer =
        (probe b p (DetectState.enter Statics.zero)).si.os_name.text
          (probe b p (DetectState.enter Statics.zero)).si_buffer ∧
      (pj_get_sys_info b p Statics.zero).si.sdk_name.text
        (pj_get_sys_info b p Statics.zero).si_buffer =
        (probe b p (DetectState.enter Statics.zero)).si.sdk_name.text
          (probe b p (DetectState.enter Statics.zero)).si_buffer) ∧
    ((pj_get_sys_info b p Statics.zero).si.info.slen ≠ 0 →
      (pj_get_sys_info b p Statics.zero).si.info.text
        (pj_get_sys_info b p Statics.zero).si_buffer =
        compose_info p (probe b p (DetectState.enter Statics.zero))) := by
  have hinv := probe_inv b p _ enter_zero_inv
  have h0 : (probe b p (DetectState.enter Statics.zero)).si.info = pj_str_t.zero :=
    probe_info b p _
  have ha := info_exhaustion_aux p _ hinv h0
  have hk := build_info_keeps p (probe b p (DetectState.enter Statics.zero))
  rw [pj_get_sys_info_zero]
  exact ⟨ha.1, ha.2.1, hk,
    ⟨(build_info_text p _ hinv .machine (by decide)).2,
     (build_info_text p _ hinv .os_name (by decide)).2,
     (build_info_text p _ hinv .sdk_name (by decide)).2⟩, ha.2.2⟩

/-- Exhaustion: a 30 character `machine` and a 20 character `os_name` leave
12 bytes, too few for the summary. -/
theorem info_exhaustion_witness :
    (pj_get_sys_info sample_build
      { sample_platform with
        uname := some { sysname := List.replicate 20 's', release := "1.2".toList,
                        machine := List.replicate 30 'm' } }
      Statics.zero).si.info = pj_str_t.zero :=
  (info_exhaustion sample_build
      { sample_platform with
        uname := some { sysname := List.replicate 20 's', release := "1.2".toList,
                        machine := List.replicate 30 'm' } }).2.1 (by decide)

/-- C10, the code at the failing input: `machine` has 20 characters and
the system name 43, so the store of `os_name` is refused and 43 bytes are
left. The summary over the fields, with the empty `os_name` as an empty
segment, has 37 characters and would fit with its terminator; but line 228
hands the null `os_name.ptr` to `%s`, the text composed has 43 characters
with `(null)`, does not fit, and `info` is left empty. -/
theorem info_empty_though_summary_fits :
    (pj_get_sys_info sample_build sample_platform_long_sysname Statics.zero).si.os_name =
      pj_str_t.zero ∧
    (pj_get_sys_info sample_build sample_platform_long_sysname Statics.zero).si.machine.slen =
      20 ∧
    (probe sample_build sample_platform_long_sysname (DetectState.enter Statics.zero)).left =
      43 ∧
    summary_of_fields
      (pj_get_sys_info sample_build sample_platform_long_sysname Statics.zero).si_buffer
      (pj_get_sys_info sample_build sample_platform_long_sysname Statics.zero).si =
      "-5.15/mmmmmmmmmmmmmmmmmmmm/glibc-2.31".toList ∧
    (summary_of_fields
      (pj_get_sys_info sample_build sample_platform_long_sysname Statics.zero).si_buffer
      (pj_get_sys_info sample_build sample_platform_long_sysname Statics.zero).si).length + 1 =
      38 ∧
    (compose_info sample_platform_long_sysname
      (probe sample_build sample_platform_long_sysname
        (DetectState.enter Statics.zero))).length + 1 = 44 ∧
    (pj_get_sys_info sample_build sample_platform_long_sysname Statics.zero).si.info =
      pj_str_t.zero := by
  decide

theorem compose_info_eq_text (p : Platform) (s : DetectState) (hinv : s.inv)
    (hm : s.si.machine.slen ≠ 0) (ho : s.si.os_name.slen ≠ 0) (hs : s.si.sdk_name.slen ≠ 0) :
    compose_info p s =
      s.si.os_name.text s.si_buffer ++ ver_info s.si.os_ver ++ ['/'] ++
        s.si.machine.text s.si_buffer ++ ['/'] ++
        s.si.sdk_name.text s.si_buffer ++ ver_info s.si.sdk_ver := by
  have e1 : fmt_s p s.si_buffer s.si.machine.ptr = s.si.machine.text s.si_buffer :=
    fmt_s_eq_text p _ s.si.machine (hinv.2.2 .machine) hm
  have e2 : fmt_s p s.si_buffer s.si.os_name.ptr = s.si.os_name.text s.si_buffer :=
    fmt_s_eq_text p _ s.si.os_name (hinv.2.2 .os_name) ho
  have e3 : fmt_s p s.si_buffer s.si.sdk_name.ptr = s.si.sdk_name.text s.si_buffer :=
    fmt_s_eq_text p _ s.si.sdk_name (hinv.2.2 .sdk_name) hs
  unfold compose_info
  rw [e1, e2, e3]

/-- C3: on the zero-filled statics, when `machine`, `os_name` and
`sdk_name` of the descriptor are non-empty and the composed text with its
terminator fits in what the probing steps left of the arena, `info` reads
`os_name ++ ver_info os_ver ++ "/" ++ machine ++ "/" ++ sdk_name ++
ver_info sdk_ver`. For x86_64, Linux, 5.15.0 and glibc 2.31 it reads
`Linux-5.15/x86_64/glibc-2.31`. -/
theorem info_composition :
    (∀ (b : Build) (p : Platform),
      (pj_get_sys_info b p Statics.zero).si.machine.slen ≠ 0 →
      (pj_get_sys_info b p Statics.zero).si.os_name.slen ≠ 0 →
      (pj_get_sys_info b p Statics.zero).si.sdk_name.slen ≠ 0 →
      ((pj_get_sys_info b p Statics.zero).si.os_name.text
          (pj_get_sys_info b p Statics.zero).si_buffer ++
        ver_info (pj_get_sys_info b p Statics.zero).si.os_ver ++ ['/'] ++
        (pj_get_sys_info b p Statics.zero).si.machine.text
          (pj_get_sys_info b p Statics.zero).si_buffer ++ ['/'] ++
        (pj_get_sys_info b p Statics.zero).si.sdk_name.text
          (pj_get_sys_info b p Statics.zero).si_buffer ++
        ver_info (pj_get_sys_info b p Statics.zero).si.sdk_ver).length + 1 ≤
        (probe b p (DetectState.enter Statics.zero)).left →
      (pj_get_sys_info b p Statics.zero).si.info.text
          (pj_get_sys_info b p Statics.zero).si_buffer =
        (pj_get_sys_info b p Statics.zero).si.os_name.text
          (pj_get_sys_info b p Statics.zero).si_buffer ++
        ver_info (pj_get_sys_info b p Statics.zero).si.os_ver ++ ['/'] ++
        (pj_get_sys_info b p Statics.zero).si.machine.text
          (pj_get_sys_info b p Statics.zero).si_buffer ++ ['/'] ++
        (pj_get_sys_info b p Statics.zero).si.sdk_name.text
          (pj_get_sys_info b p Statics.zero).si_buffer ++
        ver_info (pj_get_sys_info b p Statics.zero).si.sdk_ver) ∧
    (pj_get_sys_info sample_build sample_platform Statics.zero).si.info.text
        (pj_get_sys_info sample_build sample_platform Statics.zero).si_buffer =
      "Linux-5.15/x86_64/glibc-2.31".toList := by
  refine ⟨fun b p => ?_, by decide⟩
  have hinv := probe_inv b p _ enter_zero_inv
  have h0 : (probe b p (DetectState.enter Statics.zero)).si.info = pj_str_t.zero :=
    probe_info b p _
  have ha := info_exhaustion_aux p _ hinv h0
  have hk := build_info_keeps p (probe b p (DetectState.enter Statics.zero))
  have tm := (build_info_text p _ hinv .machine (by decide)).2
  have tn := (build_info_text p _ hinv .os_name (by decide)).2
  have ts := (build_info_text p _ hinv .sdk_name (by decide)).2
  simp only [pj_sys_info.get] at tm tn ts
  rw [pj_get_sys_info_zero]
  simp only
  rw [tm, tn, ts]
  simp only [hk.1, hk.2.1, hk.2.2.1, hk.2.2.2.1, hk.2.2.2.2]
  intro hm ho hs hfit
  rw [← compose_info_eq_text p _ hinv hm ho hs] at hfit ⊢
  exact ha.2.2 (fun hz => by have := ha.1.mp hz; omega)

/-- The sample host: every field is stored and the summary fits. -/
theorem info_composition_witness :
    (pj_get_sys_info sample_build sample_platform Statics.zero).si.info.text
        (pj_get_sys_info sample_build sample_platform Statics.zero).si_buffer =
      (pj_get_sys_info sample_build sample_platform Statics.zero).si.os_name.text
        (pj_get_sys_info sample_build sample_platform Statics.zero).si_buffer ++
      ver_info (pj_get_sys_info sample_build sample_platform Statics.zero).si.os_ver ++ ['/'] ++
      (pj_get_sys_info sample_build sample_platform Statics.zero).si.machine.text
        (pj_get_sys_info sample_build sample_platform Statics.zero).si_buffer ++ ['/'] ++
      (pj_get_sys_info sample_build sample_platform Statics.zero).si.sdk_name.text
        (pj_get_sys_info sample_build sample_platform Statics.zero).si_buffer ++
      ver_info (pj_get_sys_info sample_build sample_platform Statics.zero).si.sdk_ver :=
  info_composition.1 sample_build sample_platform (by decide) (by decide) (by decide)
    (by decide)

/-! ## Version fields of the parsed release -/

theorem os_ver_uname_eq (b : Build) (p : Platform) (u : utsname)
    (hb : b.PJ_HAS_UNAME = true) (hu : p.uname = some u) :
    (pj_get_sys_info b p Statics.zero).si.os_ver =
      pack_tokens 4 0 (tokens (c_str u.release)) 0 := by
  rw [pj_get_sys_info_zero]
  simp only [(build_info_keeps p _).2.2.1]
  rw [probe_os_ver_uname b p u _ hb hu, parse_release_eq]
  rfl

/-- A field is zero when the bits below the end of the field are. -/
theorem ver_field_eq_zero (v m k : Nat) (h : ∀ j, j < m → v.testBit j = false)
    (hk : (3 - k) * 8 + 8 ≤ m) : ver_field v k = 0 := by
  unfold ver_field
  apply Nat.eq_of_testBit_eq
  intro j
  rw [← Nat.shiftRight_eq_div_pow, show (256 : Nat) = 2 ^ 8 from rfl, Nat.testBit_mod_two_pow,
    Nat.testBit_shiftRight, Nat.zero_testBit]
  by_cases hj : j < 8
  · rw [h _ (by omega)]; simp
  · simp [hj]

theorem pack_tokens_low_bits : ∀ (k i : Nat) (toks : List (List Char)) (v j : Nat)
    (t : List Char), toks[j]? = some t → starts_with_digit t = false →
    (∀ x, x < (4 - (i + j)) * 8 → v.testBit x = false) →
    ∀ x, x < (4 - (i + j)) * 8 → (pack_tokens k i toks v).testBit x = false := by
  intro k
  induction k with
  | zero => intro i toks v j t _ _ hv x hx; exact hv x hx
  | succ k ih =>
    intro i toks v j t ht hd hv x hx
    cases toks with
    | nil => simp at ht
    | cons t0 rest =>
      by_cases h0 : starts_with_digit t0 = true
      swap
      · rw [pack_tokens_stop _ _ _ _ _ (by simpa using h0)]; exact hv x hx
      cases j with
      | zero =>
        simp only [List.getElem?_cons_zero, Option.some.injEq] at ht
        rw [ht, hd] at h0
        exact absurd h0 (by decide)
      | succ j =>
        simp only [List.getElem?_cons_succ] at ht
        rw [pack_tokens, pj_isdigit_headD, h0]
        simp only [Bool.not_true, Bool.false_eq_true, if_false]
        have e : i + 1 + j = i + (j + 1) := by omega
        apply ih (i + 1) rest _ j t ht hd
        · intro y hy
          rw [e] at hy
          rw [Nat.testBit_or, hv y hy, Nat.testBit_mod_two_pow, Nat.testBit_shiftLeft]
          have : ¬ (y ≥ (3 - i) * 8) := by omega
          simp [this]
        · rw [e]; exact hx


/-- C11 as stated fails: in the release `5.15rc.3` the token at position 1,
`15rc`, is not a decimal number, yet it contributes 15 to field 1 and the
token after it contributes 3 to field 2. -/
theorem token_with_letters_is_packed :
    (tokens (c_str "5.15rc.3".toList))[1]? = some "15rc".toList ∧
    is_decimal "15rc".toList = false ∧
    ver_field (pj_get_sys_info sample_build (sample_platform_release "5.15rc.3".toList)
      Statics.zero).si.os_ver 1 = 15 ∧
    ver_field (pj_get_sys_info sample_build (sample_platform_release "5.15rc.3".toList)
      Statics.zero).si.os_ver 2 = 3 := by
  decide

/-- C11, amended: in the `uname` branch, when the token at position `i < 4`
of the release string does not start with a digit, that token and every
later one contribute nothing: the fields `i..3` of `os_ver` are zero. -/
theorem os_ver_stops_at_non_digit (b : Build) (p : Platform) (u : utsname)
    (hb : b.PJ_HAS_UNAME = true) (hu : p.uname = some u)
    (i : Nat) (hi : i < 4) (t : List Char)
    (ht : (tokens (c_str u.release))[i]? = some t) (hd : starts_with_digit t = false) :
    ∀ k, i ≤ k → k ≤ 3 →
      ver_field (pj_get_sys_info b p Statics.zero).si.os_ver k = 0 := by
  intro k hik hk
  rw [os_ver_uname_eq b p u hb hu]
  have h := pack_tokens_low_bits 4 0 (tokens (c_str u.release)) 0 i t ht hd
    (fun x _ => Nat.zero_testBit x)
  rw [Nat.zero_add] at h
  exact ver_field_eq_zero _ ((4 - i) * 8) k h (by omega)

/-- In the release `5.15.rc3-7` the token at position 2 starts with a
letter: patch and build stay zero, also with the numeric token after it. -/
theorem os_ver_stops_at_non_digit_witness :
    ver_field (pj_get_sys_info sample_build (sample_platform_release "5.15.rc3-7".toList)
      Statics.zero).si.os_ver 2 = 0 ∧
    ver_field (pj_get_sys_info sample_build (sample_platform_release "5.15.rc3-7".toList)
      Statics.zero).si.os_ver 3 = 0 :=
  have h := os_ver_stops_at_non_digit sample_build
    (sample_platform_release "5.15.rc3-7".toList)
    { sysname := "Linux".toList, release := "5.15.rc3-7".toList, machine := "x86_64".toList }
    rfl rfl 2 (by decide) "rc3".toList (by decide) (by decide)
  ⟨h 2 (by decide) (by decide), h 3 (by decide) (by decide)⟩

theorem ver_field_or (x y k : Nat) :
    ver_field (x ||| y) k = ver_field x k ||| ver_field y k := by
  unfold ver_field
  apply Nat.eq_of_testBit_eq
  intro j
  simp only [← Nat.shiftRight_eq_div_pow, show (256 : Nat) = 2 ^ 8 from rfl,
    Nat.testBit_mod_two_pow, Nat.testBit_shiftRight, Nat.testBit_or, Bool.and_or_distrib_left]

/-- The fields of four bytes packed as line 127 packs them. -/
theorem ver_field_pack (a b c d : Nat) (ha : a ≤ 255) (hb : b ≤ 255) (hc : c ≤ 255)
    (hd : d ≤ 255) :
    ver_field (a <<< 24 ||| b <<< 16 ||| c <<< 8 ||| d) 0 = a ∧
    ver_field (a <<< 24 ||| b <<< 16 ||| c <<< 8 ||| d) 1 = b ∧
    ver_field (a <<< 24 ||| b <<< 16 ||| c <<< 8 ||| d) 2 = c ∧
    ver_field (a <<< 24 ||| b <<< 16 ||| c <<< 8 ||| d) 3 = d := by
  simp only [ver_field_or]
  have f : ∀ (n s k : Nat), ver_field (n <<< s) k = n * 2 ^ s / 2 ^ ((3 - k) * 8) % 256 := by
    intro n s k; rw [ver_field, Nat.shiftLeft_eq]
  have g : ∀ (n k : Nat), ver_field n k = n / 2 ^ ((3 - k) * 8) % 256 := fun _ _ => rfl
  refine ⟨?_, ?_, ?_, ?_⟩
  · have e1 : ver_field (a <<< 24) 0 = a := by rw [f]; norm_num; omega
    have e2 : ver_field (b <<< 16) 0 = 0 := by rw [f]; norm_num; omega
    have e3 : ver_field (c <<< 8) 0 = 0 := by rw [f]; norm_num; omega
    have e4 : ver_field d 0 = 0 := by rw [g]; norm_num; omega
    rw [e1, e2, e3, e4]; simp
  · have e1 : ver_field (a <<< 24) 1 = 0 := by rw [f]; norm_num; omega
    have e2 : ver_field (b <<< 16) 1 = b := by rw [f]; norm_num; omega
    have e3 : ver_field (c <<< 8) 1 = 0 := by rw [f]; norm_num; omega
    have e4 : ver_field d 1 = 0 := by rw [g]; norm_num; omega
    rw [e1, e2, e3, e4]; simp
  · have e1 : ver_field (a <<< 24) 2 = 0 := by rw [f]; norm_num; omega
    have e2 : ver_field (b <<< 16) 2 = 0 := by rw [f]; norm_num; omega
    have e3 : ver_field (c <<< 8) 2 = c := by rw [f]; norm_num; omega
    have e4 : ver_field d 2 = 0 := by rw [g]; norm_num; omega
    rw [e1, e2, e3, e4]; simp
  · have e1 : ver_field (a <<< 24) 3 = 0 := by rw [f]; norm_num; omega
    have e2 : ver_field (b <<< 16) 3 = 0 := by rw [f]; norm_num; omega
    have e3 : ver_field (c <<< 8) 3 = 0 := by rw [f]; norm_num
    have e4 : ver_field d 3 = d := by rw [g]; norm_num; omega
    rw [e1, e2, e3, e4]; simp


theorem digitChar_isDigit : ∀ m : Nat, m < 10 → (Nat.digitChar m).isDigit = true := by
  decide

theorem toDigitsCore_isDigit (fuel : Nat) : ∀ (n : Nat) (ds : List Char),
    (∀ c ∈ ds, c.isDigit = true) →
    ∀ c ∈ Nat.toDigitsCore 10 fuel n ds, c.isDigit = true := by
  induction fuel with
  | zero => intro n ds h; simpa [Nat.toDigitsCore] using h
  | succ fuel ih =>
    intro n ds h
    have hd : ∀ c ∈ Nat.digitChar (n % 10) :: ds, c.isDigit = true := by
      intro c hc
      rcases List.mem_cons.mp hc with e | e
      · rw [e]; exact digitChar_isDigit _ (Nat.mod_lt _ (by decide))
      · exact h c e
    unfold Nat.toDigitsCore
    simp only
    split
    · exact hd
    · exact ih _ _ hd

theorem fmt_u_isDigit (n : Nat) : ∀ c ∈ fmt_u n, c.isDigit = true :=
  toDigitsCore_isDigit _ _ _ (by simp)

theorem fmt_u_all_isDigit (n : Nat) : (fmt_u n).all Char.isDigit = true :=
  List.all_eq_true.mpr (fmt_u_isDigit n)

set_option maxRecDepth 100000 in
theorem fmt_u_byte : ∀ n : Nat, n < 256 →
    decimal_value (fmt_u n) = n ∧ (fmt_u n).length ≤ 3 ∧ starts_with_digit (fmt_u n) = true ∧
    (fmt_u n = ['0'] → n = 0) := by
  decide


/-! ## The shape of `ver_info` -/

theorem ver_info_two (v : Nat) (h0 : v ≠ 0) (h16 : v % 2 ^ 16 = 0) :
    ver_info v = ('-' :: fmt_u (v / 2 ^ 24 % 256)) ++ ('.' :: fmt_u (v / 2 ^ 16 % 256)) := by
  have h16n : v % 65536 = 0 := h16
  unfold ver_info
  simp only [byte3, byte2, byte1, byte0, low16]
  simp [h0, h16n]

theorem ver_info_three (v : Nat) (h16 : v % 2 ^ 16 ≠ 0) (h8 : v % 2 ^ 8 = 0) :
    ver_info v = ('-' :: fmt_u (v / 2 ^ 24 % 256)) ++ ('.' :: fmt_u (v / 2 ^ 16 % 256)) ++
      ('.' :: fmt_u (v / 2 ^ 8 % 256)) := by
  have h0 : v ≠ 0 := by rintro rfl; exact h16 rfl
  have h16n : ¬ v % 65536 = 0 := h16
  have h8n : v % 256 = 0 := h8
  unfold ver_info
  simp only [byte3, byte2, byte1, byte0, low16]
  simp [h0, h16n, h8n]

theorem ver_info_four (v : Nat) (h8 : v % 2 ^ 8 ≠ 0) :
    ver_info v = ('-' :: fmt_u (v / 2 ^ 24 % 256)) ++ ('.' :: fmt_u (v / 2 ^ 16 % 256)) ++
      ('.' :: fmt_u (v / 2 ^ 8 % 256)) ++ ('.' :: fmt_u (v % 256)) := by
  have h0 : v ≠ 0 := by rintro rfl; exact h8 rfl
  have h16 : v % 2 ^ 16 ≠ 0 := by
    intro h; apply h8; norm_num at h ⊢; omega
  have h16n : ¬ v % 65536 = 0 := h16
  have h8n : ¬ v % 256 = 0 := h8
  unfold ver_info
  simp only [byte3, byte2, byte1, byte0, low16]
  simp [h0, h16n, h8n]

theorem fmt_u_no_dot (n : Nat) : ∀ c ∈ fmt_u n, (c != '.') = true := by
  intro c hc
  have h := fmt_u_isDigit n c hc
  by_contra hne
  have e : c = '.' := by simpa using hne
  rw [e] at h
  exact absurd h (by decide)

theorem last_component_append (X ds : List Char) (h : ∀ c ∈ ds, (c != '.') = true) :
    last_component (X ++ '.' :: ds) = ds := by
  unfold last_component
  rw [List.reverse_append, List.reverse_cons, List.append_assoc,
    List.takeWhile_append_of_pos (by simpa using h)]
  simp

/-- C13 as stated fails: for the non-zero version 1.0.0.0 the text is
`-1.0`, whose last dotted component is 0. -/
theorem ver_info_renders_zero_minor :
    (0x01000000 : Nat) ≠ 0 ∧ ver_info 0x01000000 = "-1.0".toList ∧
    last_component (ver_info 0x01000000) = "0".toList := by
  decide

/-- C13, amended: a patch or build component that would end the text with
0 is omitted: for every version whose low 16 bits are not zero the last
dotted component of `ver_info` is not 0. When the low 16 bits are zero and
the version is not, the text ends with the minor component, whatever its
value. -/
theorem ver_info_last_component (v : Nat) :
    (v % 2 ^ 16 ≠ 0 → last_component (ver_info v) ≠ "0".toList) ∧
    (v ≠ 0 → v % 2 ^ 16 = 0 →
      last_component (ver_info v) = (Nat.repr (v / 2 ^ 16 % 256)).toList) := by
  refine ⟨fun h16 => ?_, fun h0 h16 => ?_⟩
  · by_cases h8 : v % 2 ^ 8 = 0
    · rw [ver_info_three v h16 h8, last_component_append _ _ (fmt_u_no_dot _)]
      intro e
      have := (fmt_u_byte _ (Nat.mod_lt (v / 2 ^ 8) (by decide))).2.2.2 e
      norm_num at h16 h8 this
      omega
    · rw [ver_info_four v h8, last_component_append _ _ (fmt_u_no_dot _)]
      intro e
      have := (fmt_u_byte _ (Nat.mod_lt v (by decide))).2.2.2 e
      norm_num at h8 this
      omega
  · rw [ver_info_two v h0 h16, last_component_append _ _ (fmt_u_no_dot _)]
    rfl

/-- Version 1.2.3.0 is rendered `-1.2.3`: the last component is not 0. -/
theorem ver_info_last_component_witness :
    last_component (ver_info 0x01020300) ≠ "0".toList :=
  (ver_info_last_component 0x01020300).1 (by decide)

/-- C17: the text of `ver_info` has at most 16 characters for every
version, `-255.255.255.255` having 16, so with its terminator it fits the
20 bytes of `os_ver` and `sdk_ver`. -/
theorem ver_info_length (v : Nat) :
    (ver_info v).length ≤ 16 ∧ (ver_info v).length + 1 ≤ VER_BUFFER_SIZE ∧
    (ver_info 0xFFFFFFFF).length = 16 := by
  have h3 := (fmt_u_byte _ (Nat.mod_lt (v / 2 ^ 24) (by decide : 0 < 256))).2.1
  have h2 := (fmt_u_byte _ (Nat.mod_lt (v / 2 ^ 16) (by decide : 0 < 256))).2.1
  have h1 := (fmt_u_byte _ (Nat.mod_lt (v / 2 ^ 8) (by decide : 0 < 256))).2.1
  have h0 := (fmt_u_byte _ (Nat.mod_lt v (by decide : 0 < 256))).2.1
  have hl : (ver_info v).length ≤ 16 := by
    by_cases hz : v = 0
    · subst hz; decide
    by_cases h16 : v % 2 ^ 16 = 0
    · rw [ver_info_two v hz h16]
      simp only [List.length_append, List.length_cons]
      omega
    by_cases h8 : v % 2 ^ 8 = 0
    · rw [ver_info_three v h16 h8]
      simp only [List.length_append, List.length_cons]
      omega
    · rw [ver_info_four v h8]
      simp only [List.length_append, List.length_cons]
      omega
  refine ⟨hl, ?_, by decide⟩
  unfold VER_BUFFER_SIZE
  omega

/-! ## Rendering, then parsing -/

theorem isDigit_not_delim (c : Char) (h : c.isDigit = true) :
    ¬ (decide (c ∈ release_delims) = true) := by
  intro hc
  have hm : c ∈ release_delims := by simpa using hc
  simp only [release_delims, List.mem_cons, List.mem_singleton, List.not_mem_nil, or_false] at hm
  rcases hm with e | e <;> rw [e] at h <;> exact absurd h (by decide)

theorem tokens_cons_delim (d : Char) (s : List Char) (hd : d ∈ release_delims) :
    tokens (d :: s) = tokens s := by
  simp [tokens, List.splitOnP_cons, hd]

theorem tokens_digits_append (A s : List Char) (d : Char) (hA : A ≠ [])
    (hdig : ∀ c ∈ A, c.isDigit = true) (hd : d ∈ release_delims) :
    tokens (A ++ d :: s) = A :: tokens s := by
  unfold tokens
  rw [List.splitOnP_first _ A (fun x hx => isDigit_not_delim x (hdig x hx)) d
      (by simpa using hd),
    List.filter_cons_of_pos (by simpa using hA)]

theorem tokens_digits (A : List Char) (hA : A ≠ [])
    (hdig : ∀ c ∈ A, c.isDigit = true) : tokens A = [A] := by
  unfold tokens
  rw [List.splitOnP_eq_single _ A (fun x hx => isDigit_not_delim x (hdig x hx)),
    List.filter_cons_of_pos (by simpa using hA)]
  rfl

theorem fmt_u_ne_nil (n : Nat) (h : n < 256) : fmt_u n ≠ [] := by
  intro e
  have := (fmt_u_byte n h).2.2.1
  rw [e] at this
  exact absurd this (by decide)

theorem pack_tokens_lt : ∀ (k i : Nat) (toks : List (List Char)) (v : Nat),
    v < 2 ^ 32 → pack_tokens k i toks v < 2 ^ 32 := by
  intro k
  induction k with
  | zero => intro i toks v h; exact h
  | succ k ih =>
    intro i toks v h
    cases toks with
    | nil => exact h
    | cons t rest =>
      rw [pack_tokens]
      split
      · exact h
      · exact ih _ _ _ (Nat.or_lt_two_pow h (Nat.mod_lt _ (by decide)))

/-- Two 32-bit values with the same four fields are equal. -/
theorem eq_of_ver_field (x v : Nat) (hx : x < 2 ^ 32) (hv : v < 2 ^ 32)
    (h : ∀ k, k < 4 → ver_field x k = ver_field v k) : x = v := by
  have h0 := h 0 (by decide)
  have h1 := h 1 (by decide)
  have h2 := h 2 (by decide)
  have h3 := h 3 (by decide)
  unfold ver_field at h0 h1 h2 h3
  norm_num at h0 h1 h2 h3 hx hv
  omega


theorem tokens_two (A B : List Char) (hA : A ≠ []) (hB : B ≠ [])
    (dA : ∀ c ∈ A, c.isDigit = true) (dB : ∀ c ∈ B, c.isDigit = true) :
    tokens (('-' :: A) ++ ('.' :: B)) = [A, B] := by
  simp only [List.cons_append]
  rw [tokens_cons_delim _ _ (by decide), tokens_digits_append _ _ _ hA dA (by decide),
    tokens_digits _ hB dB]

theorem tokens_three (A B C : List Char) (hA : A ≠ []) (hB : B ≠ []) (hC : C ≠ [])
    (dA : ∀ c ∈ A, c.isDigit = true) (dB : ∀ c ∈ B, c.isDigit = true)
    (dC : ∀ c ∈ C, c.isDigit = true) :
    tokens (('-' :: A) ++ ('.' :: B) ++ ('.' :: C)) = [A, B, C] := by
  simp only [List.cons_append, List.append_assoc]
  rw [tokens_cons_delim _ _ (by decide), tokens_digits_append _ _ _ hA dA (by decide),
    tokens_digits_append _ _ _ hB dB (by decide), tokens_digits _ hC dC]

theorem tokens_four (A B C D : List Char) (hA : A ≠ []) (hB : B ≠ []) (hC : C ≠ [])
    (hD : D ≠ []) (dA : ∀ c ∈ A, c.isDigit = true) (dB : ∀ c ∈ B, c.isDigit = true)
    (dC : ∀ c ∈ C, c.isDigit = true) (dD : ∀ c ∈ D, c.isDigit = true) :
    tokens (('-' :: A) ++ ('.' :: B) ++ ('.' :: C) ++ ('.' :: D)) = [A, B, C, D] := by
  simp only [List.cons_append, List.append_assoc]
  rw [tokens_cons_delim _ _ (by decide), tokens_digits_append _ _ _ hA dA (by decide),
    tokens_digits_append _ _ _ hB dB (by decide),
    tokens_digits_append _ _ _ hC dC (by decide), tokens_digits _ hD dD]

/-- One round of the loop on the digits of a byte. -/
theorem pack_tokens_byte (k i n : Nat) (toks : List (List Char)) (v : Nat) (hn : n < 256) :
    pack_tokens (k + 1) i (fmt_u n :: toks) v =
      pack_tokens k (i + 1) toks (v ||| n <<< ((3 - i) * 8)) := by
  have h := fmt_u_byte n hn
  rw [pack_tokens_step k i _ toks v h.2.2.1 (fmt_u_all_isDigit n) (by rw [h.1]; omega), h.1]

theorem pack_tokens_nil (k i v : Nat) : pack_tokens k i [] v = v := by
  cases k <;> rfl

/-- The four bytes of a 32-bit value, packed, are the value. -/
theorem pack_bytes (v : Nat) (hv : v < 2 ^ 32) :
    (v / 2 ^ 24 % 256) <<< 24 ||| (v / 2 ^ 16 % 256) <<< 16 ||| (v / 2 ^ 8 % 256) <<< 8 |||
      v % 256 = v := by
  have ha : v / 2 ^ 24 % 256 ≤ 255 := by omega
  have hb : v / 2 ^ 16 % 256 ≤ 255 := by omega
  have hc : v / 2 ^ 8 % 256 ≤ 255 := by omega
  have hd : v % 256 ≤ 255 := by omega
  have h := ver_field_pack _ _ _ _ ha hb hc hd
  have lt : ∀ (n s : Nat), n ≤ 255 → s ≤ 24 → n <<< s < 2 ^ 32 := by
    intro n s hn hs
    rw [Nat.shiftLeft_eq]
    calc n * 2 ^ s ≤ 255 * 2 ^ 24 :=
          Nat.mul_le_mul hn (Nat.pow_le_pow_right (by decide) hs)
      _ < 2 ^ 32 := by decide
  apply eq_of_ver_field _ v _ hv
  · intro k hk
    have hk4 : k = 0 ∨ k = 1 ∨ k = 2 ∨ k = 3 := by omega
    rcases hk4 with e | e | e | e <;> subst e
    · rw [h.1]; rfl
    · rw [h.2.1]; rfl
    · rw [h.2.2.1]; rfl
    · rw [h.2.2.2]; unfold ver_field; norm_num
  · exact Nat.or_lt_two_pow (Nat.or_lt_two_pow (Nat.or_lt_two_pow
      (lt _ 24 ha (by decide)) (lt _ 16 hb (by decide))) (lt _ 8 hc (by decide)))
      (by omega)

theorem parse_ver_info (v : Nat) (hv : v < 2 ^ 32) : parse_release (ver_info v) 0 = v := by
  rw [parse_release_eq, c_str_of_no_NUL _ (ver_info_no_NUL v)]
  have l3 : v / 2 ^ 24 % 256 < 256 := Nat.mod_lt _ (by decide)
  have l2 : v / 2 ^ 16 % 256 < 256 := Nat.mod_lt _ (by decide)
  have l1 : v / 2 ^ 8 % 256 < 256 := Nat.mod_lt _ (by decide)
  have l0 : v % 256 < 256 := Nat.mod_lt _ (by decide)
  have hp := pack_bytes v hv
  by_cases hz : v = 0
  · subst hz; decide
  by_cases h16 : v % 2 ^ 16 = 0
  · rw [ver_info_two v hz h16,
      tokens_two _ _ (fmt_u_ne_nil _ l3) (fmt_u_ne_nil _ l2) (fmt_u_isDigit _) (fmt_u_isDigit _),
      pack_tokens_byte _ _ _ _ _ l3, pack_tokens_byte _ _ _ _ _ l2, pack_tokens_nil]
    have e1 : v / 2 ^ 8 % 256 = 0 := by norm_num at h16 ⊢; omega
    have e0 : v % 256 = 0 := by norm_num at h16 ⊢; omega
    rw [e1, e0] at hp
    simpa using hp
  by_cases h8 : v % 2 ^ 8 = 0
  · rw [ver_info_three v h16 h8,
      tokens_three _ _ _ (fmt_u_ne_nil _ l3) (fmt_u_ne_nil _ l2) (fmt_u_ne_nil _ l1)
        (fmt_u_isDigit _) (fmt_u_isDigit _) (fmt_u_isDigit _),
      pack_tokens_byte _ _ _ _ _ l3, pack_tokens_byte _ _ _ _ _ l2,
      pack_tokens_byte _ _ _ _ _ l1, pack_tokens_nil]
    have e0 : v % 256 = 0 := h8
    rw [e0] at hp
    simpa using hp
  · rw [ver_info_four v h8,
      tokens_four _ _ _ _ (fmt_u_ne_nil _ l3) (fmt_u_ne_nil _ l2) (fmt_u_ne_nil _ l1)
        (fmt_u_ne_nil _ l0) (fmt_u_isDigit _) (fmt_u_isDigit _) (fmt_u_isDigit _)
        (fmt_u_isDigit _),
      pack_tokens_byte _ _ _ _ _ l3, pack_tokens_byte _ _ _ _ _ l2,
      pack_tokens_byte _ _ _ _ _ l1, pack_tokens_byte _ _ _ _ _ l0, pack_tokens_nil]
    simpa using hp


/-- C16: for every 32-bit value `v` the release parsing loop, fed the text
`ver_info v`, yields `v`, also as `os_ver` of a detection whose `uname`
reports that text as release; so `ver_info` is injective on 32-bit
values. -/
theorem ver_info_round_trip (v w : Nat) (hv : v < 2 ^ 32) (hw : w < 2 ^ 32) :
    parse_release (ver_info v) 0 = v ∧
    (∀ (b : Build) (p : Platform) (u : utsname), b.PJ_HAS_UNAME = true → p.uname = some u →
      u.release = ver_info v → (pj_get_sys_info b p Statics.zero).si.os_ver = v) ∧
    (ver_info v = ver_info w → v = w) := by
  refine ⟨parse_ver_info v hv, fun b p u hb hu hr => ?_, fun h => ?_⟩
  · rw [os_ver_uname_eq b p u hb hu, ← parse_release_eq, hr]
    exact parse_ver_info v hv
  · rw [← parse_ver_info v hv, ← parse_ver_info w hw, h]

/-- Version 5.15 is rendered `-5.15` and parsed back to 5.15.0.0. -/
theorem ver_info_round_trip_witness :
    parse_release (ver_info 0x050F0000) 0 = 0x050F0000 :=
  (ver_info_round_trip 0x050F0000 0x01020304 (by decide) (by decide)).1

/-! ## SDK selection -/

theorem pj_get_sys_info_sdk (b : Build) (p : Platform) :
    (pj_get_sys_info b p Statics.zero).si.sdk_name = (sdk_info b pj_sys_info.zero).sdk_name ∧
    (pj_get_sys_info b p Statics.zero).si.sdk_ver = (sdk_info b pj_sys_info.zero).sdk_ver := by
  rw [pj_get_sys_info_zero]
  simp only [(build_info_keeps p _).2.2.2.1, (build_info_keeps p _).2.2.2.2]
  unfold probe
  simp only
  exact sdk_info_sdk b _ _ (machine_os_info_sdk b p _).1 (machine_os_info_sdk b p _).2.1

/-- C14: the SDK fields of a detection on the zero-filled statics follow
the priority of the `#if` chain. With `__GLIBC__` defined they are `glibc`
and `__GLIBC__<<24 | __GLIBC_MINOR__<<16` (as a 32-bit value) whatever else
is defined; otherwise `__GNU_LIBRARY__` gives `libc`, otherwise `__UCLIBC__`
gives `uclibc`, otherwise a non-zero `_WIN32_WCE` gives `cesdk`, otherwise
`_MSC_VER` gives `msvc`; with none of them `sdk_name` stays empty and
`sdk_ver` stays 0. -/
theorem sdk_selection (b : Build) (p : Platform) :
    (∀ g, b.GLIBC = some g →
      (pj_get_sys_info b p Statics.zero).si.sdk_name = pj_str "glibc".toList ∧
      (pj_get_sys_info b p Statics.zero).si.sdk_ver =
        (g <<< 24 ||| b.GLIBC_MINOR <<< 16) % 2 ^ 32) ∧
    (b.GLIBC = none → ∀ g, b.GNU_LIBRARY = some g →
      (pj_get_sys_info b p Statics.zero).si.sdk_name = pj_str "libc".toList ∧
      (pj_get_sys_info b p Statics.zero).si.sdk_ver =
        (g <<< 24 ||| b.GNU_LIBRARY_MINOR <<< 16) % 2 ^ 32) ∧
    (b.GLIBC = none → b.GNU_LIBRARY = none → ∀ x, b.UCLIBC = some x →
      (pj_get_sys_info b p Statics.zero).si.sdk_name = pj_str "uclibc".toList ∧
      (pj_get_sys_info b p Statics.zero).si.sdk_ver =
        (b.UCLIBC_MAJOR <<< 24 ||| b.UCLIBC_MINOR <<< 16) % 2 ^ 32) ∧
    (b.GLIBC = none → b.GNU_LIBRARY = none → b.UCLIBC = none →
      ∀ wce, b.WIN32_WCE = some wce → wce ≠ 0 →
      (pj_get_sys_info b p Statics.zero).si.sdk_name = pj_str "cesdk".toList) ∧
    (b.GLIBC = none → b.GNU_LIBRARY = none → b.UCLIBC = none →
      (b.WIN32_WCE = none ∨ b.WIN32_WCE = some 0) → ∀ msc, b.MSC_VER = some msc →
      (pj_get_sys_info b p Statics.zero).si.sdk_name = pj_str "msvc".toList) ∧
    (b.GLIBC = none → b.GNU_LIBRARY = none → b.UCLIBC = none →
      (b.WIN32_WCE = none ∨ b.WIN32_WCE = some 0) → b.MSC_VER = none →
      (pj_get_sys_info b p Statics.zero).si.sdk_name = pj_str_t.zero ∧
      (pj_get_sys_info b p Statics.zero).si.sdk_ver = 0) := by
  rw [(pj_get_sys_info_sdk b p).1, (pj_get_sys_info_sdk b p).2]
  have hw : ∀ wce, b.WIN32_WCE = some wce → wce ≠ 0 →
      b.WIN32_WCE.filter (fun wce => decide (wce ≠ 0)) = some wce := by
    intro wce h hne
    rw [h]; simp [Option.filter, hne]
  have hw0 : (b.WIN32_WCE = none ∨ b.WIN32_WCE = some 0) →
      b.WIN32_WCE.filter (fun wce => decide (wce ≠ 0)) = none := by
    rintro (h | h) <;> rw [h] <;> simp [Option.filter]
  refine ⟨fun g h => ?_, fun h1 g h => ?_, fun h1 h2 x h => ?_, fun h1 h2 h3 wce h hne => ?_,
    fun h1 h2 h3 h4 msc h => ?_, fun h1 h2 h3 h4 h5 => ?_⟩
  · unfold sdk_info; rw [h]; exact ⟨rfl, rfl⟩
  · unfold sdk_info; rw [h1, h]; exact ⟨rfl, rfl⟩
  · unfold sdk_info; rw [h1, h2, h]; exact ⟨rfl, rfl⟩
  · unfold sdk_info; rw [h1, h2, h3, hw wce h hne]
  · unfold sdk_info; rw [h1, h2, h3, hw0 h4, h]
  · unfold sdk_info; rw [h1, h2, h3, hw0 h4, h5]; exact ⟨rfl, rfl⟩

/-- The sample build defines `__GLIBC__` and `__GNU_LIBRARY__`: glibc
wins. -/
theorem sdk_selection_witness :
    (pj_get_sys_info sample_build sample_platform Statics.zero).si.sdk_name =
      pj_str "glibc".toList ∧
    (pj_get_sys_info sample_build sample_platform Statics.zero).si.sdk_ver =
      (2 <<< 24 ||| sample_build.GLIBC_MINOR <<< 16) % 2 ^ 32 :=
  (sdk_selection sample_build sample_platform).1 2 rfl

/-! ## Arena bounds -/

/-- A store leaves the bytes from the new end of the handed out part on as
they are. -/
theorem ALLOC_CP_STR_above (str : List Char) (f : Field) (s : DetectState) (hwf : s.wf)
    (i : Nat) (hi : PJ_SYS_INFO_BUFFER_SIZE - (ALLOC_CP_STR str f s).left ≤ i) :
    (ALLOC_CP_STR str f s).si_buffer[i]? = s.si_buffer[i]? := by
  have hl := hwf.2
  rcases ALLOC_CP_STR_cases str f s with e | ⟨_, h2, e⟩
  · rw [e]
  · rw [e] at hi ⊢
    simp only at hi ⊢
    rw [pj_memcpy_getElem?, if_neg]
    simp only [List.length_append, List.length_singleton, c_str_length_eq]
    omega

theorem ALLOC_CP_STR_slots_disjoint (str : List Char) (f : Field) (s : DetectState)
    (hwf : s.wf) (hu : s.slots_used) (hd : s.slots_disjoint) :
    (ALLOC_CP_STR str f s).slots_disjoint := by
  rcases ALLOC_CP_STR_cases str f s with e | ⟨_, h2, e⟩ <;> rw [e]
  · exact hd
  · intro g1 g2 off1 n1 off2 n2 hne h1 h2
    simp only at h1 h2
    have hl := hwf.2
    by_cases e1 : g1 = f
    · have e2 : g2 ≠ f := fun h => hne (e1.trans h.symm)
      rw [e1, get_set_same] at h1
      rw [get_set_ne _ _ _ _ e2] at h2
      have := hu g2 off2 n2 h2
      injection h1 with hp hn
      injection hp with hp
      exact Or.inr (by omega)
    · rw [get_set_ne _ _ _ _ e1] at h1
      by_cases e2 : g2 = f
      · rw [e2, get_set_same] at h2
        have := hu g1 off1 n1 h1
        injection h2 with hp hn
        injection hp with hp
        exact Or.inl (by omega)
      · rw [get_set_ne _ _ _ _ e2] at h2
        exact hd g1 g2 off1 n1 off2 n2 hne h1 h2

theorem enter_zero_slots_disjoint : (DetectState.enter Statics.zero).slots_disjoint := by
  intro f g off1 n1 off2 n2 _ h _
  exact absurd (enter_zero_slots_used f off1 n1 h) (by
    simp [DetectState.enter, PJ_SYS_INFO_BUFFER_SIZE])

theorem run_stores_slots_disjoint (xs : List (List Char × Field)) : ∀ s : DetectState,
    s.wf → s.slots_used → s.slots_disjoint → (run_stores xs s).slots_disjoint := by
  induction xs with
  | nil => intro s _ _ h; exact h
  | cons x xs ih =>
    intro s h1 h2 h3
    rw [run_stores_cons]
    exact ih _ (ALLOC_CP_STR_wf _ _ _ h1) (ALLOC_CP_STR_slots_used _ _ _ h1 h2)
      (ALLOC_CP_STR_slots_disjoint _ _ _ h1 h2 h3)

/-- C18: after any sequence of stores `pre` on the zero-filled statics and
for any further store, `left` is within `0..PJ_SYS_INFO_BUFFER_SIZE`; the
store only ever subtracts `len + 1` from a `left` that is at least that, so
nothing wraps; it changes no byte outside the offsets
`[capacity - left_before, capacity - left_after)`, which lie inside the
buffer; and the slots of two distinct fields, terminators included, do not
overlap. -/
theorem arena_bounds (pre : List (List Char × Field)) (str : List Char) (f : Field) :
    (run_stores pre (DetectState.enter Statics.zero)).left ≤ PJ_SYS_INFO_BUFFER_SIZE ∧
    (run_stores pre (DetectState.enter Statics.zero)).si_buffer.length =
      PJ_SYS_INFO_BUFFER_SIZE ∧
    ((ALLOC_CP_STR str f (run_stores pre (DetectState.enter Statics.zero))).left =
        (run_stores pre (DetectState.enter Statics.zero)).left ∨
      (pj_ansi_strlen str + 1 ≤ (run_stores pre (DetectState.enter Statics.zero)).left ∧
        (ALLOC_CP_STR str f (run_stores pre (DetectState.enter Statics.zero))).left +
          (pj_ansi_strlen str + 1) =
          (run_stores pre (DetectState.enter Statics.zero)).left)) ∧
    (∀ i : Nat,
      (i < PJ_SYS_INFO_BUFFER_SIZE - (run_stores pre (DetectState.enter Statics.zero)).left ∨
        PJ_SYS_INFO_BUFFER_SIZE -
          (ALLOC_CP_STR str f (run_stores pre (DetectState.enter Statics.zero))).left ≤ i) →
      (ALLOC_CP_STR str f (run_stores pre (DetectState.enter Statics.zero))).si_buffer[i]? =
        (run_stores pre (DetectState.enter Statics.zero)).si_buffer[i]?) ∧
    PJ_SYS_INFO_BUFFER_SIZE -
        (ALLOC_CP_STR str f (run_stores pre (DetectState.enter Statics.zero))).left ≤
      (ALLOC_CP_STR str f (run_stores pre (DetectState.enter Statics.zero))).si_buffer.length ∧
    (ALLOC_CP_STR str f (run_stores pre (DetectState.enter Statics.zero))).slots_disjoint := by
  have hinv := run_stores_inv pre _ enter_zero_wf enter_zero_slots_used
  have hdis := run_stores_slots_disjoint pre _ enter_zero_wf enter_zero_slots_used
    enter_zero_slots_disjoint
  generalize run_stores pre (DetectState.enter Statics.zero) = s at hinv hdis
  obtain ⟨hwf, hu⟩ := hinv
  have hwf2 := ALLOC_CP_STR_wf str f s hwf
  refine ⟨hwf.2, hwf.1, ?_, fun i hi => ?_, ?_, ALLOC_CP_STR_slots_disjoint _ _ _ hwf hu hdis⟩
  · rcases ALLOC_CP_STR_cases str f s with e | ⟨_, h2, e⟩
    · exact Or.inl (by rw [e])
    · refine Or.inr ⟨h2, ?_⟩
      rw [e]
      simp only
      omega
  · rcases hi with hi | hi
    · exact ALLOC_CP_STR_below _ _ _ _ hi
    · exact ALLOC_CP_STR_above _ _ _ hwf _ hi
  · rw [hwf2.1]
    omega

/-- After `x86_64` went into `machine`, the store of `Linux` into `os_name`
leaves byte 0 as it is, and the slots of `machine` (offset 0, length 6) and
`os_name` (offset 7, length 5) do not overlap. -/
theorem arena_bounds_witness :
    (ALLOC_CP_STR "Linux".toList .os_name
      (run_stores [("x86_64".toList, Field.machine)]
        (DetectState.enter Statics.zero))).si_buffer[0]? =
      (run_stores [("x86_64".toList, Field.machine)]
        (DetectState.enter Statics.zero)).si_buffer[0]? ∧
    (0 + 6 + 1 ≤ 7 ∨ 7 + 5 + 1 ≤ 0) :=
  have h := arena_bounds [("x86_64".toList, Field.machine)] "Linux".toList .os_name
  ⟨h.2.2.2.1 0 (Or.inl (by decide)),
   h.2.2.2.2.2 .machine .os_name 0 6 7 5 (by decide) rfl rfl⟩

/-! ## Running the detection body again -/

theorem pj_memcpy_same (src dst : List Char) (off : Nat)
    (h : ∀ j, j < src.length → dst[off + j]? = src[j]?) : pj_memcpy dst off src = dst := by
  apply List.ext_getElem?
  intro i
  rw [pj_memcpy_getElem?]
  split
  · next hc =>
    have := h (i - off) (by omega)
    rw [← this]
    congr 1
    omega
  · rfl

theorem set_get (si : pj_sys_info) (f : Field) : si.set f (si.get f) = si := by
  cases f <;> rfl

/-- A store whose result is already in place, field and bytes, only moves
`left`. -/
theorem ALLOC_CP_STR_replay (str : List Char) (f : Field) (s F : DetectState) (hwf : s.wf)
    (hf : F.si.get f = (ALLOC_CP_STR str f s).si.get f)
    (hb : ∀ i : Nat, i < PJ_SYS_INFO_BUFFER_SIZE - (ALLOC_CP_STR str f s).left →
      F.si_buffer[i]? = (ALLOC_CP_STR str f s).si_buffer[i]?) :
    ALLOC_CP_STR str f { si_buffer := F.si_buffer, si := F.si, left := s.left } =
      { si_buffer := F.si_buffer, si := F.si, left := (ALLOC_CP_STR str f s).left } := by
  have hl := hwf.2
  have hlen := hwf.1
  rcases ALLOC_CP_STR_cases str f s with e | ⟨h1, h2, e⟩
  · rw [e]
    by_cases hc : pj_ansi_strlen str = 0 ∨ s.left < pj_ansi_strlen str + 1
    · exact ALLOC_CP_STR_of_fail _ _ _ hc
    · exfalso
      have h1 : pj_ansi_strlen str ≠ 0 := fun h => hc (Or.inl h)
      have h2 : pj_ansi_strlen str + 1 ≤ s.left := by
        by_contra h; exact hc (Or.inr (by omega))
      have := congrArg DetectState.left e
      rw [ALLOC_CP_STR_of_ok str f s h1 h2] at this
      simp only at this
      omega
  · rw [ALLOC_CP_STR_of_ok str f { si_buffer := F.si_buffer, si := F.si, left := s.left } h1 h2]
    rw [e] at hf hb ⊢
    simp only at hf hb ⊢
    rw [get_set_same] at hf
    have hbuf : pj_memcpy F.si_buffer (PJ_SYS_INFO_BUFFER_SIZE - s.left) (c_str str ++ [NUL]) =
        F.si_buffer := by
      apply pj_memcpy_same
      intro j hj
      simp only [List.length_append, List.length_singleton, c_str_length_eq] at hj
      rw [hb _ (by omega), pj_memcpy_getElem?, if_pos ⟨by omega, by
        simp only [List.length_append, List.length_singleton, c_str_length_eq]; omega,
        by omega⟩]
      congr 1
      omega
    rw [hbuf, ← hf, set_get]

theorem pack_tokens_or : ∀ (k i : Nat) (toks : List (List Char)) (v : Nat),
    pack_tokens k i toks v = v ||| pack_tokens k i toks 0 := by
  intro k
  induction k with
  | zero => intro i toks v; simp [pack_tokens]
  | succ k ih =>
    intro i toks v
    cases toks with
    | nil => simp [pack_tokens]
    | cons t rest =>
      rw [pack_tokens, pack_tokens]
      split
      · simp
      · rw [ih _ _ (v ||| _), ih _ _ (0 ||| _), Nat.zero_or, Nat.or_assoc]

theorem parse_release_again (release : List Char) :
    parse_release release (parse_release release 0) = parse_release release 0 := by
  rw [parse_release_eq, parse_release_eq, pack_tokens_or, Nat.or_self]

theorem sdk_info_idem (b : Build) (si : pj_sys_info) :
    sdk_info b (sdk_info b si) = sdk_info b si := by
  unfold sdk_info
  split
  · rfl
  split
  · rfl
  split
  · rfl
  split
  · rfl
  split
  · rfl
  · rfl

theorem pj_sys_info_ext (x y : pj_sys_info) (h1 : x.machine = y.machine)
    (h2 : x.os_name = y.os_name) (h3 : x.os_ver = y.os_ver) (h4 : x.sdk_name = y.sdk_name)
    (h5 : x.sdk_ver = y.sdk_ver) (h6 : x.info = y.info) : x = y := by
  cases x; cases y
  simp only at h1 h2 h3 h4 h5 h6
  subst h1 h2 h3 h4 h5 h6
  rfl

/-- A descriptor that already carries the SDK fields of the build is left
as it is by `sdk_info`. -/
theorem sdk_info_fix (b : Build) (si x : pj_sys_info)
    (h1 : si.sdk_name = (sdk_info b x).sdk_name) (h2 : si.sdk_ver = (sdk_info b x).sdk_ver) :
    sdk_info b si = si := by
  have k := sdk_info_keeps b si
  have e := sdk_info_sdk b si (sdk_info b x) h1 h2
  rw [sdk_info_idem] at e
  exact pj_sys_info_ext _ _ k.1 k.2.1 k.2.2.1 (e.1.trans h1.symm) (e.2.trans h2.symm) k.2.2.2

theorem fmt_s_congr (p : Platform) (b1 b2 : List Char) (v : pj_str_t) (bound : Nat)
    (hb : ∀ i : Nat, i < bound → b2[i]? = b1[i]?)
    (hu : ∀ off n, v = { ptr := .arena off, slen := n } → off + n + 1 ≤ bound)
    (h : view_ok b1 v) : fmt_s p b2 v.ptr = fmt_s p b1 v.ptr := by
  rcases v with ⟨ptr, n⟩
  cases ptr with
  | null => rfl
  | literal s => rfl
  | arena off =>
    have hu2 := hu off n rfl
    simp only [view_ok] at h
    simp only [fmt_s]
    exact c_str_congr (b1.drop off) (b2.drop off) n h
      (drop_take_congr b1 b2 off (n + 1) bound hb (by omega))


theorem parse_release_twice (release : List Char) (v : Nat) :
    parse_release release (parse_release release v) = parse_release release v := by
  rw [parse_release_eq, parse_release_eq, pack_tokens_or _ _ _ (pack_tokens _ _ _ v),
    pack_tokens_or _ _ _ v, Nat.or_assoc, Nat.or_self]

theorem DetectState_ext (x y : DetectState) (h1 : x.si_buffer = y.si_buffer)
    (h2 : x.si = y.si) (h3 : x.left = y.left) : x = y := by
  cases x; cases y
  simp only at h1 h2 h3
  subst h1 h2 h3
  rfl

/-- The machine and OS step, run on a state that already holds what the
step produced, only moves `left`. -/
theorem machine_os_info_replay (b : Build) (p : Platform) (s F : DetectState) (hwf : s.wf)
    (hm : F.si.machine = (machine_os_info b p s).si.machine)
    (ho : F.si.os_name = (machine_os_info b p s).si.os_name)
    (hv : F.si.os_ver = (machine_os_info b p s).si.os_ver)
    (hb : ∀ i : Nat, i < PJ_SYS_INFO_BUFFER_SIZE - (machine_os_info b p s).left →
      F.si_buffer[i]? = (machine_os_info b p s).si_buffer[i]?) :
    machine_os_info b p { si_buffer := F.si_buffer, si := F.si, left := s.left } =
      { si_buffer := F.si_buffer, si := F.si, left := (machine_os_info b p s).left } := by
  unfold machine_os_info at hm ho hv hb ⊢
  by_cases hu : b.PJ_HAS_UNAME = true
  · simp only [hu, if_true] at hm ho hv hb ⊢
    rcases hp : p.uname with _ | u
    · rfl
    · simp only [hp] at hm ho hv hb ⊢
      have hwf1 := ALLOC_CP_STR_wf u.machine .machine s hwf
      have hl2 := ALLOC_CP_STR_left_le u.sysname .os_name (ALLOC_CP_STR u.machine .machine s)
      have r1 := ALLOC_CP_STR_replay u.machine .machine s F hwf
        (hm.trans (ALLOC_CP_STR_get_ne u.sysname .os_name .machine _ (by decide)))
        (fun i hi => by
          rw [hb i (by omega)]
          exact ALLOC_CP_STR_below _ _ _ _ hi)
      have r2 := ALLOC_CP_STR_replay u.sysname .os_name (ALLOC_CP_STR u.machine .machine s) F
        hwf1 ho hb
      rw [r1, r2]
      apply DetectState_ext
      · rfl
      · simp only
        rw [hv, parse_release_twice, ← hv]
      · rfl
  · simp only [hu, Bool.false_eq_true, if_false] at hm ho hv hb ⊢
    by_cases hmsc : b.MSC_VER.isSome = true
    · simp only [hmsc, if_true] at hm ho hv hb ⊢
      rcases hg : p.GetVersionInfoEx with _ | ⟨maj, min⟩
      · rfl
      · simp only [hg] at hm ho hv hb ⊢
        apply DetectState_ext
        · rfl
        · simp only
          split_ifs at hm ho hv ⊢ <;>
            exact pj_sys_info_ext _ _ (by first | exact hm.symm | rfl) ho.symm hv.symm
              rfl rfl rfl
        · rfl
    · simp only [hmsc, Bool.false_eq_true, if_false] at hm ho hv hb ⊢

theorem build_info_below (p : Platform) (s : DetectState) (hwf : s.wf) (i : Nat)
    (hi : i < PJ_SYS_INFO_BUFFER_SIZE - s.left) :
    (build_info p s).si_buffer[i]? = s.si_buffer[i]? := by
  by_cases h : s.left < (compose_info p s).length + 1
  · rw [build_info_of_no_fit p s h]
  · rw [build_info_of_fit p s hwf (by omega)]
    exact ALLOC_CP_STR_below _ _ _ _ hi

theorem build_info_wf (p : Platform) (s : DetectState) (hwf : s.wf) : (build_info p s).wf := by
  by_cases h : s.left < (compose_info p s).length + 1
  · rw [build_info_of_no_fit p s h]; exact hwf
  · rw [build_info_of_fit p s hwf (by omega)]
    exact ALLOC_CP_STR_wf _ _ _ hwf

/-- The text composed on the finished state, with `left` as before the
summary step, is the text composed before that step. -/
theorem compose_info_replay (p : Platform) (q : DetectState) (hinv : q.inv) :
    compose_info p { si_buffer := (build_info p q).si_buffer, si := (build_info p q).si,
                     left := q.left } = compose_info p q := by
  obtain ⟨hwf, hu, hv⟩ := hinv
  have hk := build_info_keeps p q
  have hb : ∀ i : Nat, i < PJ_SYS_INFO_BUFFER_SIZE - q.left →
      (build_info p q).si_buffer[i]? = q.si_buffer[i]? :=
    fun i hi => build_info_below p q hwf i hi
  have e1 := fmt_s_congr p q.si_buffer (build_info p q).si_buffer q.si.os_name _ hb
    (fun off n e => hu .os_name off n e) (hv .os_name)
  have e2 := fmt_s_congr p q.si_buffer (build_info p q).si_buffer q.si.machine _ hb
    (fun off n e => hu .machine off n e) (hv .machine)
  have e3 := fmt_s_congr p q.si_buffer (build_info p q).si_buffer q.si.sdk_name _ hb
    (fun off n e => hu .sdk_name off n e) (hv .sdk_name)
  unfold compose_info
  simp only
  rw [hk.1, hk.2.1, hk.2.2.1, hk.2.2.2.1, hk.2.2.2.2, e1, e2, e3]

/-- The summary step, run on its own result with `left` as before, gives
that result again. -/
theorem build_info_replay (p : Platform) (q : DetectState) (hinv : q.inv) :
    build_info p { si_buffer := (build_info p q).si_buffer, si := (build_info p q).si,
                   left := q.left } =
      { si_buffer := (build_info p q).si_buffer, si := (build_info p q).si,
        left := (build_info p q).left } := by
  have hwf := hinv.1
  have hc := compose_info_replay p q hinv
  have hwf2 : DetectState.wf
      { si_buffer := (build_info p q).si_buffer, si := (build_info p q).si, left := q.left } :=
    ⟨(build_info_wf p q hwf).1, hwf.2⟩
  by_cases h : q.left < (compose_info p q).length + 1
  · rw [build_info_of_no_fit p _ (by rw [hc]; exact h)]
    rw [build_info_of_no_fit p q h]
  · rw [build_info_of_fit p _ hwf2 (by rw [hc]; simp only; omega), hc]
    have e := build_info_of_fit p q hwf (by omega)
    rw [e]
    exact ALLOC_CP_STR_replay (compose_info p q) .info q (ALLOC_CP_STR (compose_info p q) .info q)
      hwf rfl (fun _ _ => rfl)

/-- The probing steps, run on a state that already holds what they
produced, only move `left`. -/
theorem probe_replay (b : Build) (p : Platform) (s F : DetectState) (hwf : s.wf)
    (hm : F.si.machine = (probe b p s).si.machine)
    (ho : F.si.os_name = (probe b p s).si.os_name)
    (hv : F.si.os_ver = (probe b p s).si.os_ver)
    (hn : F.si.sdk_name = (probe b p s).si.sdk_name)
    (hs : F.si.sdk_ver = (probe b p s).si.sdk_ver)
    (hb : ∀ i : Nat, i < PJ_SYS_INFO_BUFFER_SIZE - (probe b p s).left →
      F.si_buffer[i]? = (probe b p s).si_buffer[i]?) :
    probe b p { si_buffer := F.si_buffer, si := F.si, left := s.left } =
      { si_buffer := F.si_buffer, si := F.si, left := (probe b p s).left } := by
  unfold probe at hm ho hv hn hs hb ⊢
  simp only at hm ho hv hn hs hb ⊢
  have hr := machine_os_info_replay b p s F hwf
    (hm.trans (sdk_info_keeps b _).1) (ho.trans (sdk_info_keeps b _).2.1)
    (hv.trans (sdk_info_keeps b _).2.2.1) hb
  rw [hr]
  simp only
  rw [sdk_info_fix b F.si (machine_os_info b p s).si hn hs]

/-- C15: the detection body, run again over the descriptor and the arena
that a first run on the zero-filled statics left, with the same build and
the same answers of the platform, leaves the statics of the first run:
descriptor, arena contents and flag. -/
theorem detection_idempotent (b : Build) (p : Platform) :
    pj_get_sys_info b p (pj_get_sys_info b p Statics.zero).before_flag =
      pj_get_sys_info b p Statics.zero := by
  have hq := probe_inv b p _ enter_zero_inv
  have hk := build_info_keeps p (probe b p (DetectState.enter Statics.zero))
  have hprobe := probe_replay b p (DetectState.enter Statics.zero)
    (build_info p (probe b p (DetectState.enter Statics.zero))) enter_zero_wf
    hk.1 hk.2.1 hk.2.2.1 hk.2.2.2.1 hk.2.2.2.2
    (fun i hi => build_info_below p _ hq.1 i hi)
  have hb := build_info_replay p _ hq
  rw [pj_get_sys_info_zero]
  unfold pj_get_sys_info
  rw [if_neg (by simp [Statics.before_flag])]
  show ({ si_buffer := (build_info p (probe b p
            { si_buffer := (build_info p (probe b p (DetectState.enter Statics.zero))).si_buffer,
              si := (build_info p (probe b p (DetectState.enter Statics.zero))).si,
              left := (DetectState.enter Statics.zero).left })).si_buffer,
          si := (build_info p (probe b p
            { si_buffer := (build_info p (probe b p (DetectState.enter Statics.zero))).si_buffer,
              si := (build_info p (probe b p (DetectState.enter Statics.zero))).si,
              left := (DetectState.enter Statics.zero).left })).si,
          si_initialized := true } : Statics) = _
  rw [hprobe, hb]

end PjOsInfo
